import Mathlib

/-!
# Verification of the attentive AT-command parser and dispatcher

Shallow embedding of `src/at_parser.c` and `src/src/at-freertos_hal.c`.

Bytes are modelled as `Nat`; the parser buffer is modelled as the list of its
live bytes `buf[0 .. buf_used)`, so `buf_used` is `buf.length`.  C strings
compared with `strncmp(line, tab, strlen(tab))` are modelled as byte-list
comparisons with `List.isPrefixOf` (bounded `strncmp` against a NUL-free
table entry agrees with list-prefix testing byte for byte).

`at_parser_feed` in the C source walks a pointer `buf` and a count `len`.
In `STATE_RAWDATA` the source advances the pointer without decrementing
`len` (line 256 of at_parser.c), so the loop can read bytes past the end of
the supplied slice; in `STATE_HEXDATA` the whole case body is compiled out
under `#if 0`, so the loop spins forever.  The embedding makes both visible:
reading past the end of the slice yields `FeedResult.oob` (the C behaviour
there is reading unrelated memory), and reaching `STATE_HEXDATA` with bytes
left yields `FeedResult.hang` (the C loop makes no progress; the fuel-indexed
`at_parser_feedN` below substantiates this).  Events emitted before that
point are the callback invocations the C program actually performs.
-/

/-- Parser states, from `enum at_parser_state` (at_parser.c lines 6-12). -/
inductive PState where
  | idle
  | readline
  | dataprompt
  | rawdata
  | hexdata
deriving DecidableEq, Repr

/-- A line classifier: receives the line bytes (the C passes pointer and
length; the length is the list length).  Returns an `at_response_type`
value. -/
def Scanner : Type := List Nat → Nat

/-- Modelled from the spec: the header `at_parser.h` with
`enum at_response_type` is not among the sources.  Per spec §4.1 the value's
low byte is the category and the upper bytes carry the embedded payload
length for the data-follows forms; `UNKNOWN` is zero ("defer to the next
classifier"). -/
def AT_RESPONSE_UNKNOWN : Nat := 0

/-- Modelled from the spec: category code for an intermediate line. -/
def AT_RESPONSE_INTERMEDIATE : Nat := 1

/-- Modelled from the spec: category code for a final OK line. -/
def AT_RESPONSE_FINAL_OK : Nat := 2

/-- Modelled from the spec: category code for a final (error) line. -/
def AT_RESPONSE_FINAL : Nat := 3

/-- Modelled from the spec: category code for an unsolicited result code. -/
def AT_RESPONSE_URC : Nat := 4

/-- Modelled from the spec: category code of `_AT_RESPONSE_RAWDATA_FOLLOWS`. -/
def AT_RESPONSE_RAWDATA_FOLLOWS_CAT : Nat := 5

/-- Modelled from the spec: category code of `_AT_RESPONSE_HEXDATA_FOLLOWS`. -/
def AT_RESPONSE_HEXDATA_FOLLOWS_CAT : Nat := 6

/-- Modelled from the spec: `_AT_RESPONSE_TYPE_MASK`, the low-byte mask. -/
def AT_RESPONSE_TYPE_MASK : Nat := 255

/-- Modelled from the spec: `AT_RESPONSE_RAWDATA_FOLLOWS(n)` packs the
category in the low byte and the expected payload length above it. -/
def AT_RESPONSE_RAWDATA_FOLLOWS (n : Nat) : Nat :=
  AT_RESPONSE_RAWDATA_FOLLOWS_CAT + n * 256

/-- Modelled from the spec: `AT_RESPONSE_HEXDATA_FOLLOWS(n)`. -/
def AT_RESPONSE_HEXDATA_FOLLOWS (n : Nat) : Nat :=
  AT_RESPONSE_HEXDATA_FOLLOWS_CAT + n * 256

/-- Bytes of a string literal (for the scanner tables). -/
def bytes (s : String) : List Nat := s.data.map Char.toNat

/-- `ok_responses` table (at_parser.c lines 29-33). -/
def ok_responses : List (List Nat) := [bytes "OK", bytes "> "]

/-- `error_responses` table (at_parser.c lines 35-41). -/
def error_responses : List (List Nat) :=
  [bytes "ERROR", bytes "NO CARRIER", bytes "+CME ERROR:", bytes "+CMS ERROR:"]

/-- `urc_responses` table (at_parser.c lines 43-46). -/
def urc_responses : List (List Nat) := [bytes "RING"]

/-- `at_prefix_in_table` (at_parser.c lines 89-96): does some table entry
lead the line? -/
def at_prefix_in_table (line : List Nat) (table : List (List Nat)) : Bool :=
  table.any fun p => p.isPrefixOf line

/-- `generic_line_scanner` (at_parser.c lines 98-110). -/
def generic_line_scanner (line : List Nat) : Nat :=
  if at_prefix_in_table line urc_responses then AT_RESPONSE_URC
  else if at_prefix_in_table line error_responses then AT_RESPONSE_FINAL
  else if at_prefix_in_table line ok_responses then AT_RESPONSE_FINAL_OK
  else AT_RESPONSE_INTERMEDIATE

/-- Parser instance (`struct at_parser`, at_parser.c lines 14-27).
`buf` holds the live bytes `buf[0 .. buf_used)`, so `buf_used = buf.length`.
`nibble` is `int` in C and is never written by `at_parser_alloc` or
`at_parser_reset`; allocation leaves it indeterminate, which the model
captures by threading the allocation-time value through `at_parser_alloc`. -/
structure ParserState where
  pstate : PState
  perCommandScanner : Option Scanner
  dataLeft : Nat
  nibble : Int
  buf : List Nat
  bufCurrent : Nat
  bufSize : Nat

/-- `at_parser_reset` (at_parser.c lines 74-81).  Note: `nibble` is not
touched. -/
def at_parser_reset (p : ParserState) : ParserState :=
  { p with pstate := PState.idle, perCommandScanner := none,
           buf := [], bufCurrent := 0, dataLeft := 0 }

/-- `at_parser_alloc` (at_parser.c lines 48-72): records the buffer size and
calls `at_parser_reset`.  `nibble0` is the indeterminate content malloc left
in the `nibble` field (never written by alloc). -/
def at_parser_alloc (bufsize : Nat) (nibble0 : Int) : ParserState :=
  at_parser_reset
    { pstate := PState.idle, perCommandScanner := none, dataLeft := 0,
      nibble := nibble0, buf := [], bufCurrent := 0, bufSize := bufsize }

/-- `at_parser_await_response` (at_parser.c lines 83-87). -/
def at_parser_await_response (p : ParserState) (dataprompt : Bool)
    (scanner : Option Scanner) : ParserState :=
  { p with perCommandScanner := scanner,
           pstate := if dataprompt then PState.dataprompt else PState.readline }

/-- `parser_append` (at_parser.c lines 112-116): append only below
`buf_size - 1` (one byte reserved for the NUL terminator). -/
def parser_append (p : ParserState) (ch : Nat) : ParserState :=
  if p.buf.length < p.bufSize - 1 then { p with buf := p.buf ++ [ch] } else p

/-- Callback invocations, in order.  `scanLine` records an invocation of the
session `scan_line` callback; `urc` of `handle_urc`; `response` of
`handle_response` (payload bytes and the `len` argument). -/
inductive PEvent where
  | scanLine (line : List Nat)
  | urc (line : List Nat) (len : Nat)
  | response (payload : List Nat) (len : Nat)
deriving DecidableEq, Repr

/-- The classifier chain of `parser_handle_line` (at_parser.c lines 139-145):
per-command scanner, then session `scan_line`, then the generic scanner;
a zero result defers to the next stage.  Also returns the `scan_line`
callback invocation, when it happens. -/
def classify (sl : Option Scanner) (pcs : Option Scanner) (line : List Nat) :
    Nat × List PEvent :=
  let t1 := match pcs with
    | some f => f line
    | none => AT_RESPONSE_UNKNOWN
  if t1 ≠ 0 then (t1, [])
  else match sl with
    | some g =>
        let t2 := g line
        (if t2 ≠ 0 then t2 else generic_line_scanner line, [PEvent.scanLine line])
    | none => (generic_line_scanner line, [])

/-- `parser_handle_line` (at_parser.c lines 121-216).  The C NUL-terminates
`buf[buf_used]` before classifying; that write never reaches a callback
payload (payloads are pointer+length pairs) and is a no-op on the model. -/
def parser_handle_line (sl : Option Scanner) (p : ParserState) :
    ParserState × List PEvent :=
  if p.buf.length = p.bufCurrent then (p, [])
  else
    let line := p.buf.drop p.bufCurrent
    let c := classify sl p.perCommandScanner line
    let ty := c.1
    if ty = AT_RESPONSE_URC ∨ p.pstate = PState.idle then
      let c' := p.bufCurrent - 1
      ({ p with buf := p.buf.take c', bufCurrent := c' },
       c.2 ++ [PEvent.urc line (p.buf.length - p.bufCurrent)])
    else
      let p1 :=
        if ty ≠ AT_RESPONSE_FINAL_OK then { p with bufCurrent := p.buf.length }
        else
          let c' := p.bufCurrent - 1
          { p with buf := p.buf.take c', bufCurrent := c' }
      let cat := ty &&& AT_RESPONSE_TYPE_MASK
      if cat = AT_RESPONSE_FINAL_OK ∨ cat = AT_RESPONSE_FINAL then
        (at_parser_reset p1, c.2 ++ [PEvent.response p1.buf p1.buf.length])
      else if cat = AT_RESPONSE_RAWDATA_FOLLOWS_CAT then
        ({ p1 with dataLeft := ty >>> 8, pstate := PState.rawdata }, c.2)
      else if cat = AT_RESPONSE_HEXDATA_FOLLOWS_CAT then
        ({ p1 with dataLeft := ty >>> 8, nibble := -1, pstate := PState.hexdata },
         c.2)
      else (p1, c.2)

/-- The separator block of `at_parser_feed`'s line states (at_parser.c lines
233-238): when committed content precedes an empty current line, append a
`'\n'` separator and advance `buf_current` to `buf_used`. -/
def parser_line_sep (p : ParserState) : ParserState :=
  if p.buf.length > 0 ∧ p.bufCurrent = p.buf.length then
    let px := parser_append p 10
    { px with bufCurrent := px.buf.length }
  else p

/-- One byte in states IDLE/READLINE/DATAPROMPT
(at_parser.c lines 226-253). -/
def parser_line_byte (sl : Option Scanner) (p : ParserState) (ch : Nat) :
    ParserState × List PEvent :=
  let p1 :=
    if ch ≠ 13 ∧ ch ≠ 10 then parser_append (parser_line_sep p) ch
    else p
  if ch = 10 ∨
      (p1.pstate = PState.dataprompt ∧ p1.buf.length = 2 ∧ p1.buf = bytes "> ") then
    parser_handle_line sl p1
  else (p1, [])

/-- One byte in STATE_RAWDATA (at_parser.c lines 255-268).  Both `if`s of
the C body, in order; note the caller does not decrement `len` for this
byte. -/
def parser_rawdata_byte (p : ParserState) (ch : Nat) : ParserState :=
  let p1 :=
    if p.dataLeft > 0 then
      { parser_append p ch with dataLeft := p.dataLeft - 1 }
    else p
  if p1.dataLeft = 0 then
    let p2 := parser_append p1 10
    { p2 with bufCurrent := p2.buf.length, pstate := PState.readline }
  else p1

/-- Result of a `at_parser_feed` call.  `ok` is a normal return; `oob` marks
the loop reading a byte past the end of the supplied slice (possible because
STATE_RAWDATA advances the data pointer without decrementing `len`); `hang`
marks reaching STATE_HEXDATA with `len > 0`, where the `#if 0` case body
makes no progress and the `while (len > 0)` loop never exits.  Each carries
the callback invocations performed before that point. -/
inductive FeedResult where
  | ok (p : ParserState) (evs : List PEvent)
  | oob (evs : List PEvent)
  | hang (evs : List PEvent)

/-- The callback invocations of a feed result. -/
def FeedResult.events : FeedResult → List PEvent
  | FeedResult.ok _ e => e
  | FeedResult.oob e => e
  | FeedResult.hang e => e

/-- Did the feed call return normally? -/
def FeedResult.isOk : FeedResult → Bool
  | FeedResult.ok _ _ => true
  | _ => false

/-- Prepend earlier callback invocations to a feed result. -/
def prependEvents (evs : List PEvent) : FeedResult → FeedResult
  | FeedResult.ok p e => FeedResult.ok p (evs ++ e)
  | FeedResult.oob e => FeedResult.oob (evs ++ e)
  | FeedResult.hang e => FeedResult.hang (evs ++ e)

/-- `at_parser_feed` (at_parser.c lines 218-286).  `data` is the byte slice
the caller hands in, `len` the count it declares (a normal call passes
`data.length`).  The loop reads one byte per iteration in the line states
and in STATE_RAWDATA, but only the line states decrement `len`; the
STATE_HEXDATA body is compiled out.  Reading with the slice exhausted is
`oob`; STATE_HEXDATA with `len > 0` is `hang`. -/
def at_parser_feed (sl : Option Scanner) :
    ParserState → List Nat → Nat → FeedResult
  | p, _, 0 => FeedResult.ok p []
  | p, data, len + 1 =>
    match p.pstate with
    | PState.hexdata => FeedResult.hang []
    | PState.rawdata =>
      match data with
      | [] => FeedResult.oob []
      | ch :: rest => at_parser_feed sl (parser_rawdata_byte p ch) rest (len + 1)
    | _ =>
      match data with
      | [] => FeedResult.oob []
      | ch :: rest =>
        let r := parser_line_byte sl p ch
        prependEvents r.2 (at_parser_feed sl r.1 rest len)

/-- Fuel-indexed mirror of the `while (len > 0)` loop of `at_parser_feed`:
one unit of fuel per loop iteration, `none` when the fuel runs out.  In
STATE_HEXDATA the C iteration changes nothing (the case body is under
`#if 0`), which is exactly the recursive call with unchanged arguments. -/
def at_parser_feedN (sl : Option Scanner) :
    Nat → ParserState → List Nat → Nat → Option FeedResult
  | 0, _, _, _ => none
  | _ + 1, p, _, 0 => some (FeedResult.ok p [])
  | fuel + 1, p, data, len + 1 =>
    match p.pstate with
    | PState.hexdata => at_parser_feedN sl fuel p data (len + 1)
    | PState.rawdata =>
      match data with
      | [] => some (FeedResult.oob [])
      | ch :: rest =>
        at_parser_feedN sl fuel (parser_rawdata_byte p ch) rest (len + 1)
    | _ =>
      match data with
      | [] => some (FeedResult.oob [])
      | ch :: rest =>
        let r := parser_line_byte sl p ch
        (at_parser_feedN sl fuel r.1 rest len).map (prependEvents r.2)

/-- Caller-visible parser operations: `at_parser_feed` (a normal call, with
`len = data.length`), `at_parser_await_response`, `at_parser_reset`. -/
inductive POp where
  | feed (data : List Nat)
  | await (dataprompt : Bool) (scanner : Option Scanner)
  | reset

/-- One API call.  `none` when the call runs into the out-of-slice read or
the non-terminating hex loop. -/
def runOp (sl : Option Scanner) (p : ParserState) :
    POp → Option (ParserState × List PEvent)
  | POp.feed data =>
    match at_parser_feed sl p data data.length with
    | FeedResult.ok p' evs => some (p', evs)
    | _ => none
  | POp.await d s => some (at_parser_await_response p d s, [])
  | POp.reset => some (at_parser_reset p, [])

/-- A sequence of API calls, accumulating callback invocations. -/
def runOps (sl : Option Scanner) :
    ParserState → List POp → Option (ParserState × List PEvent)
  | p, [] => some (p, [])
  | p, op :: rest =>
    match runOp sl p op with
    | none => none
    | some (p1, e1) =>
      match runOps sl p1 rest with
      | none => none
      | some (p2, e2) => some (p2, e1 ++ e2)

/-- Feeding a list of chunks in order, each with its own length
(spec P3's sub-chunk feeding). -/
def feedChunks (sl : Option Scanner) :
    ParserState → List (List Nat) → FeedResult
  | p, [] => FeedResult.ok p []
  | p, c :: cs =>
    match at_parser_feed sl p c c.length with
    | FeedResult.ok p1 e1 => prependEvents e1 (feedChunks sl p1 cs)
    | r => r

/-- `AT_COMMAND_LENGTH` (at-freertos_hal.c line 24): the command scratch
buffer size. -/
def AT_COMMAND_LENGTH : Nat := 80

/-- Dispatcher instance (`struct at_freertos`, at-freertos_hal.c lines
26-39), restricted to the fields the command path reads and writes:
the `open` and `waiting` flags, the per-command scanner (held in the
embedded `struct at`), the owned parser, and the response scratch. -/
structure Chan where
  openFlag : Bool
  waiting : Bool
  commandScanner : Option Scanner
  parser : ParserState
  response : List Nat

/-- Modelled from the spec: this HAL arms the parser with
`at_parser_await_response(priv->at.parser)` (at-freertos_hal.c line 224), a
parser-variant call whose definition is not among the sources; per spec
§4.1, `await_response` without a data prompt sets the parser state to
READLINE. -/
def hal_await_response (p : ParserState) : ParserState :=
  { p with pstate := PState.readline }

/-- The resolution tail of `_at_command` (at-freertos_hal.c lines 253-272),
applied to the channel state observed after the wait loop: closed channel
and timeout yield null (the latter resetting the parser), otherwise the
response scratch is returned; the per-command scanner is cleared in all
three of these cases. -/
def at_command_resolve (ch : Chan) : Option (List Nat) × Chan :=
  if ch.openFlag = false then
    (none, { ch with commandScanner := none })
  else if ch.waiting = true then
    (none, { ch with parser := at_parser_reset ch.parser, commandScanner := none })
  else
    (some ch.response, { ch with commandScanner := none })

/-- `_at_command` (at-freertos_hal.c lines 211-273).  The transport write
and the semaphore wait loop (lines 227-250) run concurrently with the
reader task; `wait` abstracts everything that happens to the channel
between arming the parser and the loop's exit — the function's return value
depends only on the channel state observed at that point.  Note the early
`!open` return (lines 218-221) happens before the scanner-clearing at line
269. -/
def at_command_model (wait : Chan → Chan) (ch : Chan) :
    Option (List Nat) × Chan :=
  if ch.openFlag = false then (none, ch)
  else
    at_command_resolve
      (wait { ch with parser := hal_await_response ch.parser, waiting := true })

/-- The formatting front half of `at_command` (at-freertos_hal.c lines
275-299).  `formatted` stands for the full `vsnprintf` expansion of the
format string and arguments; `vsnprintf(line, sizeof(line)-1, ...)` returns
that full length, the guard `len >= sizeof(line)-1` rejects anything that
does not fit, and otherwise a single `'\r'` is appended and the result sent.
-/
def at_command_fmt (formatted : List Nat) : Option (List Nat) :=
  if AT_COMMAND_LENGTH - 1 ≤ formatted.length then none
  else some (formatted ++ [13])

/-- `at_command` (at-freertos_hal.c lines 275-299): format, bail out on
overflow before touching the channel or transport, otherwise run
`_at_command` on the formatted bytes plus the trailing CR. -/
def at_command_hal (wait : Chan → Chan) (ch : Chan) (formatted : List Nat) :
    Option (List Nat) × Chan :=
  match at_command_fmt formatted with
  | none => (none, ch)
  | some _ => at_command_model wait ch

/-- The `expected` string of `at_config` (at-freertos_hal.c line 402):
the `snprintf` expansion of `"+%s: %s"` with the option and value. -/
def at_config_expected (opt val : List Nat) : List Nat :=
  [43] ++ opt ++ [58, 32] ++ val

/-- `at_config`'s retry loop (at-freertos_hal.c lines 390-410).  `query i`
is the value `at_command(at, "AT+%s?", option)` returns on attempt `i`
(the preceding set command's result is ignored by the source); `snprintf`'s
return value is the untruncated length of `at_config_expected`, checked
against `sizeof(expected) = 32`. -/
def at_config_go (opt val : List Nat) (query : Nat → Option (List Nat)) :
    Nat → Nat → Int
  | _, 0 => 0
  | i, rem + 1 =>
    match query i with
    | none => -2
    | some response =>
      if 32 ≤ (at_config_expected opt val).length then -1
      else if (at_config_expected opt val).isPrefixOf response then 0
      else at_config_go opt val query (i + 1) rem

/-- `at_config` (at-freertos_hal.c lines 388-413): run up to `attempts`
set-and-query rounds; fall through to `return 0` when all are exhausted. -/
def at_config (opt val : List Nat) (attempts : Nat)
    (query : Nat → Option (List Nat)) : Int :=
  at_config_go opt val query 0 attempts

/-- Spec P1's buffer-cursor invariant: `0 ≤ current ≤ used < capacity`
(the lower bound is inherent to `Nat`). -/
def WF (p : ParserState) : Prop :=
  p.bufCurrent ≤ p.buf.length ∧ p.buf.length < p.bufSize

instance : DecidablePred WF := fun p => by unfold WF; infer_instance

/-- The parser is in one of the three line-segmentation states. -/
def LineState (p : ParserState) : Prop :=
  p.pstate = PState.idle ∨ p.pstate = PState.readline ∨
    p.pstate = PState.dataprompt

instance : DecidablePred LineState := fun p => by unfold LineState; infer_instance

/-- A classifier that only ever returns the plain categories
(UNKNOWN/INTERMEDIATE/FINAL_OK/FINAL/URC), never a data-follows value. -/
def PlainScanner (f : Scanner) : Prop := ∀ l, f l ≤ 4

/-- An optional classifier slot holding, if anything, a plain classifier. -/
def PlainOpt (o : Option Scanner) : Prop := ∀ f, o = some f → PlainScanner f

/-- An operation sequence that installs only plain classifiers. -/
def PlainOps (ops : List POp) : Prop :=
  ∀ d s, POp.await d s ∈ ops → PlainOpt s

/-- The committed intermediate lines of a response, joined by single `'\n'`
separators (no trailing separator). -/
def joinLines : List (List Nat) → List Nat
  | [] => []
  | [l] => l
  | l :: ls => l ++ 10 :: joinLines ls

/-- Structure of the committed region `buf[0 .. current)`: either nothing is
committed, or it is the committed lines joined by `'\n'` — with one further
trailing `'\n'` separator exactly while a next line is under construction
(or was about to be, but the buffer filled up at `capacity - 1` right after
the separator went in). -/
def Committed (p : ParserState) : Prop :=
  p.bufCurrent = 0 ∨
    ∃ lines : List (List Nat), lines ≠ [] ∧
      (∀ l ∈ lines, l ≠ [] ∧ 10 ∉ l) ∧
      ((p.bufCurrent = p.buf.length ∧
          p.buf.take p.bufCurrent = joinLines lines) ∨
        (p.buf.take p.bufCurrent = joinLines lines ++ [10] ∧
          (p.bufCurrent < p.buf.length ∨
            (p.bufCurrent = p.buf.length ∧ p.buf.length = p.bufSize - 1))))

/-- Everything the FINAL_OK-discard argument needs of a reachable state:
the cursor invariant, a line-segmentation state, a plain per-command
classifier, a separator-free line under construction, and the committed
region's structure. -/
def GoodC (p : ParserState) : Prop :=
  WF p ∧ LineState p ∧ PlainOpt p.perCommandScanner ∧
    10 ∉ p.buf.drop p.bufCurrent ∧ 13 ∉ p.buf.drop p.bufCurrent ∧
    Committed p

/-! ## Basic lemmas about the parser steps -/

theorem prependEvents_nil (r : FeedResult) : prependEvents [] r = r := by
  cases r <;> simp [prependEvents]

theorem prependEvents_append (e1 e2 : List PEvent) (r : FeedResult) :
    prependEvents e1 (prependEvents e2 r) = prependEvents (e1 ++ e2) r := by
  cases r <;> simp [prependEvents]

theorem prependEvents_eq_ok {e : List PEvent} {r : FeedResult}
    {p : ParserState} {evs : List PEvent}
    (h : prependEvents e r = FeedResult.ok p evs) :
    ∃ evs', r = FeedResult.ok p evs' ∧ evs = e ++ evs' := by
  cases r with
  | ok q e' =>
    simp [prependEvents] at h
    exact ⟨e', by rw [h.1], by rw [h.2]⟩
  | oob e' => simp [prependEvents] at h
  | hang e' => simp [prependEvents] at h

theorem parser_append_bufSize (p : ParserState) (ch : Nat) :
    (parser_append p ch).bufSize = p.bufSize := by
  unfold parser_append; split <;> rfl

theorem parser_append_bufCurrent (p : ParserState) (ch : Nat) :
    (parser_append p ch).bufCurrent = p.bufCurrent := by
  unfold parser_append; split <;> rfl

theorem parser_append_pstate (p : ParserState) (ch : Nat) :
    (parser_append p ch).pstate = p.pstate := by
  unfold parser_append; split <;> rfl

theorem parser_append_scanner (p : ParserState) (ch : Nat) :
    (parser_append p ch).perCommandScanner = p.perCommandScanner := by
  unfold parser_append; split <;> rfl

theorem parser_append_dataLeft (p : ParserState) (ch : Nat) :
    (parser_append p ch).dataLeft = p.dataLeft := by
  unfold parser_append; split <;> rfl

theorem parser_append_nibble (p : ParserState) (ch : Nat) :
    (parser_append p ch).nibble = p.nibble := by
  unfold parser_append; split <;> rfl

theorem parser_append_buf_cases (p : ParserState) (ch : Nat) :
    (p.buf.length < p.bufSize - 1 ∧ (parser_append p ch).buf = p.buf ++ [ch]) ∨
      (¬p.buf.length < p.bufSize - 1 ∧ (parser_append p ch).buf = p.buf) := by
  unfold parser_append; split <;> simp_all

theorem parser_append_full (p : ParserState) (ch : Nat)
    (h : ¬p.buf.length < p.bufSize - 1) : parser_append p ch = p := by
  unfold parser_append; split <;> simp_all

theorem parser_append_length_le (p : ParserState) (ch : Nat) :
    p.buf.length ≤ (parser_append p ch).buf.length := by
  rcases parser_append_buf_cases p ch with ⟨_, h⟩ | ⟨_, h⟩ <;> simp [h]

theorem parser_append_WF (p : ParserState) (ch : Nat) (h : WF p) :
    WF (parser_append p ch) := by
  obtain ⟨h1, h2⟩ := h
  rcases parser_append_buf_cases p ch with ⟨hlt, hb⟩ | ⟨_, hb⟩ <;>
    refine ⟨?_, ?_⟩ <;>
      simp [WF, hb, parser_append_bufCurrent, parser_append_bufSize] <;> omega

theorem parser_handle_line_bufSize (sl : Option Scanner) (p : ParserState) :
    (parser_handle_line sl p).1.bufSize = p.bufSize := by
  unfold parser_handle_line at_parser_reset
  dsimp only
  split_ifs <;> rfl

theorem parser_handle_line_nibble (sl : Option Scanner) (p : ParserState) :
    (parser_handle_line sl p).1.nibble = p.nibble ∨
      (parser_handle_line sl p).1.nibble = -1 := by
  unfold parser_handle_line at_parser_reset
  dsimp only
  split_ifs <;> simp

theorem parser_handle_line_WF (sl : Option Scanner) (p : ParserState)
    (h : WF p) : WF (parser_handle_line sl p).1 := by
  obtain ⟨h1, h2⟩ := h
  unfold parser_handle_line at_parser_reset
  dsimp only
  split_ifs <;>
    simp [WF, List.length_take] <;> omega

theorem parser_line_sep_bufSize (p : ParserState) :
    (parser_line_sep p).bufSize = p.bufSize := by
  unfold parser_line_sep
  split
  · simp [parser_append_bufSize]
  · rfl

theorem parser_line_sep_WF (p : ParserState) (h : WF p) :
    WF (parser_line_sep p) := by
  unfold parser_line_sep
  split
  · exact ⟨le_refl _, (parser_append_WF p 10 h).2⟩
  · exact h

theorem parser_line_byte_bufSize (sl : Option Scanner) (p : ParserState)
    (ch : Nat) : (parser_line_byte sl p ch).1.bufSize = p.bufSize := by
  unfold parser_line_byte
  dsimp only
  split_ifs <;>
    simp [parser_handle_line_bufSize, parser_append_bufSize,
      parser_line_sep_bufSize]

theorem parser_line_byte_WF (sl : Option Scanner) (p : ParserState) (ch : Nat)
    (h : WF p) : WF (parser_line_byte sl p ch).1 := by
  unfold parser_line_byte
  dsimp only
  split_ifs with h1 h2 h3
  · exact parser_handle_line_WF _ _ (parser_append_WF _ _ (parser_line_sep_WF p h))
  · exact parser_append_WF _ _ (parser_line_sep_WF p h)
  · exact parser_handle_line_WF _ _ h
  · exact h

theorem parser_rawdata_byte_bufSize (p : ParserState) (ch : Nat) :
    (parser_rawdata_byte p ch).bufSize = p.bufSize := by
  unfold parser_rawdata_byte
  dsimp only
  split_ifs <;>
    simp [parser_append_bufSize]

theorem parser_append_length_lt (p : ParserState) (ch : Nat)
    (h : p.buf.length < p.bufSize) :
    (parser_append p ch).buf.length < p.bufSize := by
  unfold parser_append
  split_ifs with hc
  · simp only [List.length_append, List.length_cons, List.length_nil]
    omega
  · exact h

theorem parser_append_length_lt' (p : ParserState) (ch : Nat)
    (h : p.buf.length < p.bufSize) :
    (parser_append p ch).buf.length < (parser_append p ch).bufSize := by
  rw [parser_append_bufSize]
  exact parser_append_length_lt p ch h

theorem parser_rawdata_byte_WF (p : ParserState) (ch : Nat) (h : WF p) :
    WF (parser_rawdata_byte p ch) := by
  unfold parser_rawdata_byte
  dsimp only
  split_ifs <;>
    first
      | exact h
      | exact ⟨(parser_append_WF p ch h).1, (parser_append_WF p ch h).2⟩
      | exact ⟨le_refl _,
          parser_append_length_lt' _ 10 (parser_append_length_lt' p ch h.2)⟩
      | exact ⟨le_refl _, parser_append_length_lt' p 10 h.2⟩

/-! ## Feed-level and call-sequence-level preservation -/

theorem at_parser_feed_ok_preserve (sl : Option Scanner) (Q : ParserState → Prop)
    (hline : ∀ p ch, Q p → Q (parser_line_byte sl p ch).1)
    (hraw : ∀ p ch, Q p → Q (parser_rawdata_byte p ch)) :
    ∀ (data : List Nat) (len : Nat) (p p' : ParserState) (evs : List PEvent),
      Q p → at_parser_feed sl p data len = FeedResult.ok p' evs → Q p' := by
  intro data
  induction data with
  | nil =>
    intro len p p' evs hQ h
    cases len with
    | zero =>
      simp only [at_parser_feed, FeedResult.ok.injEq] at h
      exact h.1 ▸ hQ
    | succ n =>
      obtain ⟨ps, a, b, c, d, e, g⟩ := p
      cases ps <;> simp [at_parser_feed] at h
  | cons ch rest ih =>
    intro len p p' evs hQ h
    cases len with
    | zero =>
      simp only [at_parser_feed, FeedResult.ok.injEq] at h
      exact h.1 ▸ hQ
    | succ n =>
      obtain ⟨ps, a, b, c, d, e, g⟩ := p
      cases ps
      case hexdata => simp [at_parser_feed] at h
      case rawdata =>
        simp only [at_parser_feed] at h
        exact ih (n + 1) _ p' evs (hraw _ ch hQ) h
      all_goals
        simp only [at_parser_feed] at h
        obtain ⟨evs', h1, _⟩ := prependEvents_eq_ok h
        exact ih n _ p' evs' (hline _ ch hQ) h1

theorem runOps_preserve (sl : Option Scanner) (Q : ParserState → Prop)
    (R : POp → Prop)
    (hstep : ∀ p op p' evs, Q p → R op → runOp sl p op = some (p', evs) → Q p') :
    ∀ (ops : List POp) (p p' : ParserState) (evs : List PEvent),
      Q p → (∀ op ∈ ops, R op) → runOps sl p ops = some (p', evs) → Q p' := by
  intro ops
  induction ops with
  | nil =>
    intro p p' evs hQ _ h
    simp only [runOps, Option.some.injEq, Prod.mk.injEq] at h
    exact h.1 ▸ hQ
  | cons op rest ih =>
    intro p p' evs hQ hR h
    simp only [runOps] at h
    cases h1 : runOp sl p op with
    | none => rw [h1] at h; simp at h
    | some q =>
      obtain ⟨p1, e1⟩ := q
      rw [h1] at h
      dsimp only at h
      cases h2 : runOps sl p1 rest with
      | none => rw [h2] at h; simp at h
      | some q2 =>
        obtain ⟨p2, e2⟩ := q2
        rw [h2] at h
        dsimp only at h
        simp only [Option.some.injEq, Prod.mk.injEq] at h
        have hQ1 := hstep p op p1 e1 hQ (hR op (by simp)) h1
        have := ih p1 p2 e2 hQ1 (fun o ho => hR o (by simp [ho])) h2
        exact h.1 ▸ this

/-! ## The line-segmentation states under plain classifiers -/

theorem generic_line_scanner_bounds (line : List Nat) :
    1 ≤ generic_line_scanner line ∧ generic_line_scanner line ≤ 4 := by
  unfold generic_line_scanner
  split_ifs <;> decide

theorem classify_bounds (sl pcs : Option Scanner) (line : List Nat)
    (hsl : PlainOpt sl) (hpcs : PlainOpt pcs) :
    1 ≤ (classify sl pcs line).1 ∧ (classify sl pcs line).1 ≤ 4 := by
  unfold classify
  dsimp only
  cases pcs with
  | some f =>
    have hf := hpcs f rfl line
    split_ifs with h1
    · exact ⟨Nat.one_le_iff_ne_zero.mpr h1, hf⟩
    · cases sl with
      | some g =>
        have hg := hsl g rfl line
        dsimp only
        split_ifs with h2 <;>
          first
            | exact ⟨Nat.one_le_iff_ne_zero.mpr h2, hg⟩
            | exact generic_line_scanner_bounds line
      | none => exact generic_line_scanner_bounds line
  | none =>
    simp only [ne_eq, AT_RESPONSE_UNKNOWN, not_true_eq_false, if_false]
    cases sl with
    | some g =>
      have hg := hsl g rfl line
      dsimp only
      split_ifs with h2 <;>
        first
          | exact ⟨Nat.one_le_iff_ne_zero.mpr h2, hg⟩
          | exact generic_line_scanner_bounds line
    | none => exact generic_line_scanner_bounds line

theorem and255_small (t : Nat) (h : t ≤ 4) : t &&& 255 = t := by
  interval_cases t <;> decide

theorem PlainOpt_none : PlainOpt none := fun _ h => nomatch h

theorem LineState_of_eq {p q : ParserState} (h : q.pstate = p.pstate)
    (hl : LineState p) : LineState q := by
  unfold LineState at *
  rw [h]
  exact hl

theorem PlainOpt_of_eq {p q : ParserState}
    (h : q.perCommandScanner = p.perCommandScanner)
    (hp : PlainOpt p.perCommandScanner) : PlainOpt q.perCommandScanner := by
  rw [h]
  exact hp

theorem parser_line_sep_pstate (p : ParserState) :
    (parser_line_sep p).pstate = p.pstate := by
  unfold parser_line_sep
  split
  · simp [parser_append_pstate]
  · rfl

theorem parser_line_sep_scanner (p : ParserState) :
    (parser_line_sep p).perCommandScanner = p.perCommandScanner := by
  unfold parser_line_sep
  split
  · simp [parser_append_scanner]
  · rfl

theorem parser_handle_line_plain (sl : Option Scanner) (p : ParserState)
    (hsl : PlainOpt sl) (hp : PlainOpt p.perCommandScanner)
    (hls : LineState p) :
    LineState (parser_handle_line sl p).1 ∧
      PlainOpt (parser_handle_line sl p).1.perCommandScanner := by
  unfold parser_handle_line
  dsimp only
  have hb := classify_bounds sl p.perCommandScanner (p.buf.drop p.bufCurrent)
    hsl hp
  simp only [AT_RESPONSE_TYPE_MASK]
  simp only [and255_small _ hb.2]
  have h14 : (classify sl p.perCommandScanner (p.buf.drop p.bufCurrent)).1 = 1 ∨
      (classify sl p.perCommandScanner (p.buf.drop p.bufCurrent)).1 = 2 ∨
      (classify sl p.perCommandScanner (p.buf.drop p.bufCurrent)).1 = 3 ∨
      (classify sl p.perCommandScanner (p.buf.drop p.bufCurrent)).1 = 4 := by
    omega
  rcases h14 with h | h | h | h <;> rw [h] <;> split_ifs <;>
    first
      | exact ⟨hls, hp⟩
      | exact ⟨Or.inl rfl, PlainOpt_none⟩
      | simp_all [AT_RESPONSE_FINAL_OK, AT_RESPONSE_FINAL, AT_RESPONSE_URC,
          AT_RESPONSE_RAWDATA_FOLLOWS_CAT, AT_RESPONSE_HEXDATA_FOLLOWS_CAT]

theorem parser_line_byte_plain (sl : Option Scanner) (p : ParserState)
    (ch : Nat) (hsl : PlainOpt sl) (hp : PlainOpt p.perCommandScanner)
    (hls : LineState p) :
    LineState (parser_line_byte sl p ch).1 ∧
      PlainOpt (parser_line_byte sl p ch).1.perCommandScanner := by
  unfold parser_line_byte
  dsimp only
  have hls1 : LineState (parser_append (parser_line_sep p) ch) :=
    LineState_of_eq
      (by rw [parser_append_pstate, parser_line_sep_pstate]) hls
  have hp1 : PlainOpt (parser_append (parser_line_sep p) ch).perCommandScanner :=
    PlainOpt_of_eq
      (by rw [parser_append_scanner, parser_line_sep_scanner]) hp
  split_ifs <;>
    first
      | exact parser_handle_line_plain sl _ hsl hp1 hls1
      | exact parser_handle_line_plain sl _ hsl hp hls
      | exact ⟨hls1, hp1⟩
      | exact ⟨hls, hp⟩

theorem at_parser_feed_line_ok (sl : Option Scanner) (hsl : PlainOpt sl) :
    ∀ (data : List Nat) (p : ParserState), LineState p →
      PlainOpt p.perCommandScanner →
      ∃ p' evs, at_parser_feed sl p data data.length = FeedResult.ok p' evs ∧
        LineState p' ∧ PlainOpt p'.perCommandScanner := by
  intro data
  induction data with
  | nil => intro p hls hp; exact ⟨p, [], rfl, hls, hp⟩
  | cons ch rest ih =>
    intro p hls hp
    have hstep := parser_line_byte_plain sl p ch hsl hp hls
    obtain ⟨p', evs, hfeed, hls', hp'⟩ := ih (parser_line_byte sl p ch).1
      hstep.1 hstep.2
    refine ⟨p', (parser_line_byte sl p ch).2 ++ evs, ?_, hls', hp'⟩
    obtain ⟨ps, a, b, c, d, e, g⟩ := p
    cases ps
    case rawdata => exact absurd hls (by simp [LineState])
    case hexdata => exact absurd hls (by simp [LineState])
    all_goals
      simp only [List.length_cons, at_parser_feed] at hfeed ⊢
    all_goals rw [hfeed]; simp [prependEvents]

theorem at_parser_feed_append (sl : Option Scanner) (hsl : PlainOpt sl) :
    ∀ (a b : List Nat) (p : ParserState), LineState p →
      PlainOpt p.perCommandScanner →
      ∀ p1 e1, at_parser_feed sl p a a.length = FeedResult.ok p1 e1 →
        at_parser_feed sl p (a ++ b) (a.length + b.length) =
          prependEvents e1 (at_parser_feed sl p1 b b.length) := by
  intro a
  induction a with
  | nil =>
    intro b p _ _ p1 e1 h
    simp only [List.length_nil, at_parser_feed, FeedResult.ok.injEq] at h
    rw [List.nil_append]
    simp only [List.length_nil, Nat.zero_add]
    rw [← h.1, ← h.2, prependEvents_nil]
  | cons ch rest ih =>
    intro b p hls hp p1 e1 h
    have hstep := parser_line_byte_plain sl p ch hsl hp hls
    obtain ⟨q, eq1, hq, hlq, hpq⟩ := at_parser_feed_line_ok sl hsl rest
      (parser_line_byte sl p ch).1 hstep.1 hstep.2
    have hlen : (ch :: rest).length + b.length = (rest.length + b.length) + 1 := by
      simp
      omega
    rw [hlen]
    have hcons : ∀ (d : List Nat) (n : Nat),
        at_parser_feed sl p (ch :: d) (n + 1) =
          prependEvents (parser_line_byte sl p ch).2
            (at_parser_feed sl (parser_line_byte sl p ch).1 d n) := by
      intro d n
      obtain ⟨ps, a1, b1, c1, d1, e1', g1⟩ := p
      cases ps
      case rawdata => exact absurd hls (by simp [LineState])
      case hexdata => exact absurd hls (by simp [LineState])
      all_goals rfl
    rw [List.cons_append, hcons (rest ++ b) (rest.length + b.length)]
    have h' : at_parser_feed sl p (ch :: rest) (rest.length + 1) =
        FeedResult.ok p1 e1 := by
      simpa using h
    rw [hcons rest rest.length] at h'
    obtain ⟨e1', hq', he1⟩ := prependEvents_eq_ok h'
    rw [ih b (parser_line_byte sl p ch).1 hstep.1 hstep.2 p1 e1' hq', he1,
      ← prependEvents_append]

/-! ## Claim C1: incremental-feed equivalence -/

/-- C1, as stated, is false on the code: after a scanner returns
`RAWDATA_FOLLOWS(n)` the STATE_RAWDATA case of `at_parser_feed` advances the
data pointer without decrementing `len`, so bulk and sub-chunk feeding
diverge.  Concretely, with a per-command scanner classifying the line `"A"`
as `RAWDATA_FOLLOWS(1)`, feeding the stream `"A\nX\nOK\n"` in the two chunks
`"A\nX"` and `"\nOK\n"` performs no callback at all before the loop reads
past the first chunk (`FeedResult.oob []`), while feeding it as one chunk
fires `handle_response` with payload `[65, 88, 10]` before its own
out-of-slice read — the two callback sequences differ. -/
theorem c1_counterexample :
    let s1 : Scanner := fun l => if l = [65] then AT_RESPONSE_RAWDATA_FOLLOWS 1 else 0
    let q0 := at_parser_await_response (at_parser_alloc 64 0) false (some s1)
    let chunks : List (List Nat) := [bytes "A\nX", bytes "\nOK\n"]
    feedChunks none q0 chunks = FeedResult.oob [] ∧
      at_parser_feed none q0 chunks.flatten chunks.flatten.length =
        FeedResult.oob [PEvent.response [65, 88, 10] 3] ∧
      (feedChunks none q0 chunks).events = [] ∧
      (at_parser_feed none q0 chunks.flatten chunks.flatten.length).events =
        [PEvent.response [65, 88, 10] 3] ∧
      ([] : List PEvent) ≠ [PEvent.response [65, 88, 10] 3] :=
  ⟨rfl, rfl, rfl, rfl, by decide⟩

/-- C1 (amended): incremental-feed equivalence holds on every run that stays
in the line-segmentation states — in particular whenever every installed
classifier returns only the plain categories (UNKNOWN, INTERMEDIATE,
FINAL_OK, FINAL, URC), so that `RAWDATA_FOLLOWS`/`HEXDATA_FOLLOWS` never
fire: feeding a stream as one chunk and as any list of sub-chunks produces
identical results, callback sequences included.  After a scanner returns
`RAWDATA_FOLLOWS(n)` the equivalence fails (see the counterexample). -/
theorem c1_incremental_feed_equiv (sl : Option Scanner) (p : ParserState)
    (chunks : List (List Nat)) (hsl : PlainOpt sl) (hls : LineState p)
    (hp : PlainOpt p.perCommandScanner) :
    feedChunks sl p chunks =
      at_parser_feed sl p chunks.flatten chunks.flatten.length := by
  induction chunks generalizing p with
  | nil => rfl
  | cons c cs ih =>
    obtain ⟨p1, e1, hf, hls1, hp1⟩ := at_parser_feed_line_ok sl hsl c p hls hp
    have hstep : feedChunks sl p (c :: cs) =
        prependEvents e1 (feedChunks sl p1 cs) := by
      simp only [feedChunks]
      rw [hf]
    rw [hstep, ih p1 hls1 hp1, List.flatten_cons, List.length_append]
    exact (at_parser_feed_append sl hsl c cs.flatten p hls hp p1 e1 hf).symm

/-- Witness for `c1_incremental_feed_equiv` at a concrete run: no session
scanner, a fresh parser armed for a response, scenario 3's stream split into
single bytes. -/
theorem c1_incremental_feed_equiv_witness :
    feedChunks none
        (at_parser_await_response (at_parser_alloc 64 0) false none)
        [[79], [75], [13], [10]] =
      at_parser_feed none
        (at_parser_await_response (at_parser_alloc 64 0) false none)
        ([[79], [75], [13], [10]] : List (List Nat)).flatten
        ([[79], [75], [13], [10]] : List (List Nat)).flatten.length :=
  c1_incremental_feed_equiv none
    (at_parser_await_response (at_parser_alloc 64 0) false none)
    [[79], [75], [13], [10]] PlainOpt_none (Or.inr (Or.inl rfl)) PlainOpt_none

/-! ## Claim C10: feed termination -/

/-- C10, as stated, is false on the code: the `STATE_HEXDATA` case of
`at_parser_feed` is compiled out under `#if 0`, so the `while (len > 0)`
loop makes no progress there and never terminates.  The state is reachable:
a per-command scanner returning `HEXDATA_FOLLOWS(1)` for the line `"A"`
puts the parser into STATE_HEXDATA, and a subsequent one-byte feed neither
returns (`FeedResult.hang`) nor completes within any number of loop
iterations (`at_parser_feedN` with fuel 40 shown here; the amended theorem
proves it for every fuel). -/
theorem c10_counterexample :
    let hs : Scanner := fun l => if l = [65] then AT_RESPONSE_HEXDATA_FOLLOWS 1 else 0
    let pHex : ParserState :=
      { pstate := PState.hexdata, perCommandScanner := some hs, dataLeft := 1,
        nibble := -1, buf := [65], bufCurrent := 1, bufSize := 8 }
    at_parser_feed none
        (at_parser_await_response (at_parser_alloc 8 0) false (some hs))
        (bytes "A\n") 2 = FeedResult.ok pHex [] ∧
      at_parser_feed none pHex [88] 1 = FeedResult.hang [] ∧
      (at_parser_feed none pHex [88] 1).isOk = false ∧
      at_parser_feedN none 40 pHex [88] 1 = none :=
  ⟨rfl, rfl, rfl, rfl⟩

/-- C10 (amended): a normal call `at_parser_feed(p, data, data.length)`
terminates, consuming exactly the supplied bytes, whenever the run stays in
the line-segmentation states (in particular when every installed classifier
returns only the plain categories); but with the parser in STATE_HEXDATA
and a non-empty input the feed loop never terminates: no amount of loop
iterations (fuel for `at_parser_feedN`) completes the call. -/
theorem c10_feed_termination (sl : Option Scanner) :
    (∀ (p : ParserState) (data : List Nat),
        PlainOpt sl → LineState p → PlainOpt p.perCommandScanner →
        ∃ p' evs,
          at_parser_feed sl p data data.length = FeedResult.ok p' evs) ∧
    (∀ (p : ParserState) (data : List Nat) (len fuel : Nat),
        p.pstate = PState.hexdata → len ≠ 0 →
        at_parser_feedN sl fuel p data len = none) := by
  constructor
  · intro p data hsl hls hp
    obtain ⟨p', evs, h, _, _⟩ := at_parser_feed_line_ok sl hsl data p hls hp
    exact ⟨p', evs, h⟩
  · intro p data len fuel hst hlen
    induction fuel with
    | zero => rfl
    | succ n ih =>
      cases len with
      | zero => exact absurd rfl hlen
      | succ m =>
        have hred : at_parser_feedN sl (n + 1) p data (m + 1) =
            at_parser_feedN sl n p data (m + 1) := by
          obtain ⟨ps, a, b, c, d, e, g⟩ := p
          simp only at hst
          subst hst
          rfl
        rw [hred]
        exact ih

/-- Witness for `c10_feed_termination`: both parts at concrete inputs. -/
theorem c10_feed_termination_witness :
    (∃ p' evs,
        at_parser_feed none (at_parser_alloc 8 0) (bytes "OK\r\n") 4 =
          FeedResult.ok p' evs) ∧
      at_parser_feedN none 7
        { pstate := PState.hexdata, perCommandScanner := none, dataLeft := 1,
          nibble := -1, buf := [], bufCurrent := 0, bufSize := 8 }
        [88] 1 = none := by
  constructor
  · exact (c10_feed_termination none).1 (at_parser_alloc 8 0) (bytes "OK\r\n")
      PlainOpt_none (Or.inl rfl) PlainOpt_none
  · exact (c10_feed_termination none).2 _ [88] 1 7 rfl (by decide)

/-! ## Claim C2: data prompt delivery -/

/-- C2, as stated, is false on the code: with the parser in DATAPROMPT and
no per-command scanner, feeding `"> "` does finalize the line immediately,
but the line is classified FINAL_OK (the table `ok_responses` contains
`"> "`), and `parser_handle_line` discards every FINAL_OK line from the
buffer before firing `handle_response` — so the callback receives the empty
payload and length 0, not `"> "` and length 2. -/
theorem c2_counterexample :
    at_parser_feed none
        (at_parser_await_response (at_parser_alloc 16 0) true none)
        (bytes "> ") 2 =
      FeedResult.ok (at_parser_alloc 16 0) [PEvent.response [] 0] ∧
      [PEvent.response [] 0] ≠ [PEvent.response (bytes "> ") 2] :=
  ⟨rfl, by decide⟩

/-- C2 (amended): after `await_response` with `dataprompt = true` and no
scanners, on a parser freshly allocated with `bufsize ≥ 3`, feeding exactly
the two bytes `"> "` (no CR/LF) immediately finalizes the line and fires
`handle_response` exactly once — with the empty payload and length 0, the
`"> "` line itself being discarded as a FINAL_OK line — leaving the parser
in IDLE (the freshly-allocated state). -/
theorem c2_dataprompt_delivery (n : Nat) (g : Int) (hn : 3 ≤ n) :
    at_parser_feed none
        (at_parser_await_response (at_parser_alloc n g) true none)
        (bytes "> ") 2 =
      FeedResult.ok (at_parser_alloc n g) [PEvent.response [] 0] := by
  have h1 : (0 : Nat) < n - 1 := by omega
  have h2 : (1 : Nat) < n - 1 := by omega
  simp [at_parser_feed, parser_line_byte, parser_line_sep, parser_append,
    parser_handle_line, classify, generic_line_scanner, at_prefix_in_table,
    at_parser_await_response, at_parser_alloc, at_parser_reset, bytes,
    prependEvents, h1, h2, AT_RESPONSE_URC, AT_RESPONSE_FINAL_OK,
    AT_RESPONSE_FINAL, AT_RESPONSE_INTERMEDIATE, AT_RESPONSE_UNKNOWN,
    AT_RESPONSE_TYPE_MASK, urc_responses, error_responses, ok_responses,
    List.isPrefixOf, show (2 : Nat) &&& 255 = 2 from by decide]

/-- Witness for `c2_dataprompt_delivery` at `bufsize = 8`. -/
theorem c2_dataprompt_delivery_witness :
    at_parser_feed none
        (at_parser_await_response (at_parser_alloc 8 0) true none)
        (bytes "> ") 2 =
      FeedResult.ok (at_parser_alloc 8 0) [PEvent.response [] 0] :=
  c2_dataprompt_delivery 8 0 (by decide)

/-! ## Claim C5: classifier chain -/

/-- C5 (confirmed): the classifier chain consults the per-command scanner,
then the session `scan_line`, then the built-in generic scanner, a result
of UNKNOWN (zero) deferring to the next stage; and the generic scanner
returns URC for the prefix "RING", FINAL for the prefixes "ERROR",
"NO CARRIER", "+CME ERROR:", "+CMS ERROR:", FINAL_OK for the prefixes "OK"
and "> " (case-sensitive prefix matches, in that priority order), and
INTERMEDIATE otherwise. -/
theorem c5_classifier_chain :
    (∀ (sl : Option Scanner) (f : Scanner) (line : List Nat),
        f line ≠ 0 → (classify sl (some f) line).1 = f line) ∧
    (∀ (g : Scanner) (pcs : Option Scanner) (line : List Nat),
        (∀ f, pcs = some f → f line = 0) → g line ≠ 0 →
        (classify (some g) pcs line).1 = g line) ∧
    (∀ (sl pcs : Option Scanner) (line : List Nat),
        (∀ f, pcs = some f → f line = 0) →
        (∀ g, sl = some g → g line = 0) →
        (classify sl pcs line).1 = generic_line_scanner line) ∧
    (∀ line : List Nat,
        ((bytes "RING").isPrefixOf line = true →
          generic_line_scanner line = AT_RESPONSE_URC) ∧
        ((bytes "RING").isPrefixOf line = false →
          ((bytes "ERROR").isPrefixOf line = true ∨
            (bytes "NO CARRIER").isPrefixOf line = true ∨
            (bytes "+CME ERROR:").isPrefixOf line = true ∨
            (bytes "+CMS ERROR:").isPrefixOf line = true) →
          generic_line_scanner line = AT_RESPONSE_FINAL) ∧
        ((bytes "RING").isPrefixOf line = false →
          (bytes "ERROR").isPrefixOf line = false →
          (bytes "NO CARRIER").isPrefixOf line = false →
          (bytes "+CME ERROR:").isPrefixOf line = false →
          (bytes "+CMS ERROR:").isPrefixOf line = false →
          ((bytes "OK").isPrefixOf line = true ∨
            (bytes "> ").isPrefixOf line = true) →
          generic_line_scanner line = AT_RESPONSE_FINAL_OK) ∧
        ((bytes "RING").isPrefixOf line = false →
          (bytes "ERROR").isPrefixOf line = false →
          (bytes "NO CARRIER").isPrefixOf line = false →
          (bytes "+CME ERROR:").isPrefixOf line = false →
          (bytes "+CMS ERROR:").isPrefixOf line = false →
          (bytes "OK").isPrefixOf line = false →
          (bytes "> ").isPrefixOf line = false →
          generic_line_scanner line = AT_RESPONSE_INTERMEDIATE)) := by
  refine ⟨?_, ?_, ?_, ?_⟩
  · intro sl f line hf
    unfold classify
    simp [hf]
  · intro g pcs line hpcs hg
    unfold classify
    cases pcs with
    | some f => simp [hpcs f rfl, hg, AT_RESPONSE_UNKNOWN]
    | none => simp [hg, AT_RESPONSE_UNKNOWN]
  · intro sl pcs line hpcs hsl
    unfold classify
    cases pcs with
    | some f =>
      cases sl with
      | some g => simp [hpcs f rfl, hsl g rfl, AT_RESPONSE_UNKNOWN]
      | none => simp [hpcs f rfl, AT_RESPONSE_UNKNOWN]
    | none =>
      cases sl with
      | some g => simp [hsl g rfl, AT_RESPONSE_UNKNOWN]
      | none => simp [AT_RESPONSE_UNKNOWN]
  · intro line
    refine ⟨?_, ?_, ?_, ?_⟩ <;>
      · intro h
        unfold generic_line_scanner at_prefix_in_table urc_responses
          error_responses ok_responses
        simp_all

/-- Witness for `c5_classifier_chain`: concrete classifications — an
installed per-command scanner wins, and the generic scanner classifies
"RING" as URC and "+CSQ: 1" as INTERMEDIATE. -/
theorem c5_classifier_chain_witness :
    (classify none (some fun _ => 3) [65]).1 = 3 ∧
      generic_line_scanner (bytes "RING") = AT_RESPONSE_URC ∧
      generic_line_scanner (bytes "+CSQ: 1") = AT_RESPONSE_INTERMEDIATE :=
  ⟨c5_classifier_chain.1 none (fun _ => 3) [65] (by decide),
    (c5_classifier_chain.2.2.2 (bytes "RING")).1 (by decide),
    (c5_classifier_chain.2.2.2 (bytes "+CSQ: 1")).2.2.2 (by decide)
      (by decide) (by decide) (by decide) (by decide) (by decide) (by decide)⟩

/-! ## Claim C7: at_config result codes -/

/-- One unfolding of `at_config`'s retry loop. -/
theorem at_config_go_succ (opt val : List Nat)
    (query : Nat → Option (List Nat)) (i rem : Nat) :
    at_config_go opt val query i (rem + 1) =
      match query i with
      | none => -2
      | some response =>
        if 32 ≤ (at_config_expected opt val).length then -1
        else if (at_config_expected opt val).isPrefixOf response then 0
        else at_config_go opt val query (i + 1) rem := rfl

/-- The tail of `at_config`'s retry loop returns 0 when every remaining
attempt gets a non-matching response. -/
theorem at_config_go_exhausted (opt val : List Nat)
    (query : Nat → Option (List Nat)) :
    ∀ (rem i : Nat), (at_config_expected opt val).length < 32 →
      (∀ j, j < rem → ∃ r, query (i + j) = some r ∧
        (at_config_expected opt val).isPrefixOf r = false) →
      at_config_go opt val query i rem = 0 := by
  intro rem
  induction rem with
  | zero => intro i _ _; rfl
  | succ m ih =>
    intro i hfit hall
    obtain ⟨r, hq, hm⟩ := hall 0 (Nat.succ_pos m)
    rw [Nat.add_zero] at hq
    rw [at_config_go_succ, hq]
    dsimp only
    rw [if_neg (show ¬32 ≤ (at_config_expected opt val).length from by omega)]
    rw [if_neg
      (show ¬(at_config_expected opt val).isPrefixOf r = true from by
        simp [hm])]
    exact ih (i + 1) hfit fun j hj => by
      obtain ⟨r', hq', hm'⟩ := hall (j + 1) (by omega)
      refine ⟨r', ?_, hm'⟩
      rw [show i + 1 + j = i + (j + 1) from by omega]
      exact hq'

/-- `at_config`'s retry loop reaches attempt `i + k` unchanged when each
of the `k` intervening attempts gets a non-null, fitting, non-matching
response. -/
theorem at_config_go_reach (opt val : List Nat)
    (query : Nat → Option (List Nat)) :
    ∀ (k rem i : Nat), k < rem →
      (∀ j, j < k → ∃ r, query (i + j) = some r ∧
        (at_config_expected opt val).length < 32 ∧
        (at_config_expected opt val).isPrefixOf r = false) →
      at_config_go opt val query i rem =
        at_config_go opt val query (i + k) (rem - k) := by
  intro k
  induction k with
  | zero => intro rem i _ _; simp
  | succ m ih =>
    intro rem i hk hall
    obtain ⟨r, hq, hfit, hm⟩ := hall 0 (Nat.succ_pos m)
    rw [Nat.add_zero] at hq
    obtain ⟨rem', rfl⟩ : ∃ rem', rem = rem' + 1 :=
      ⟨rem - 1, by omega⟩
    rw [at_config_go_succ, hq]
    dsimp only
    rw [if_neg (show ¬32 ≤ (at_config_expected opt val).length from by omega)]
    rw [if_neg
      (show ¬(at_config_expected opt val).isPrefixOf r = true from by
        simp [hm])]
    rw [ih rem' (i + 1) (by omega) (fun j hj => by
      obtain ⟨r', hq', hf', hm'⟩ := hall (j + 1) (by omega)
      refine ⟨r', ?_, hf', hm'⟩
      rw [show i + 1 + j = i + (j + 1) from by omega]
      exact hq')]
    rw [show i + 1 + m = i + (m + 1) from by omega,
      show rem' - m = rem' + 1 - (m + 1) from by omega]

/-- C7 (confirmed): for every option, value and `attempts ≥ 1`, at any
attempt `i < attempts` that the retry loop reaches (every earlier attempt
got a non-null response that fits the 32-byte scratch and does not match
the expected prefix), `at_config` returns −2 when attempt `i`'s query
returns null (timeout/closed), −1 when it returns a response but the
expected string "+opt: val" does not fit the 32-byte formatting scratch,
and 0 when the response matches the expected prefix; and it returns 0
when all attempts are exhausted without a match. -/
theorem c7_at_config_results (opt val : List Nat) (attempts : Nat)
    (query : Nat → Option (List Nat)) (_hat : 1 ≤ attempts) :
    (∀ i, i < attempts →
      (∀ j, j < i → ∃ r, query j = some r ∧
        (at_config_expected opt val).length < 32 ∧
        (at_config_expected opt val).isPrefixOf r = false) →
      (query i = none → at_config opt val attempts query = -2) ∧
      (∀ r, query i = some r → 32 ≤ (at_config_expected opt val).length →
        at_config opt val attempts query = -1) ∧
      (∀ r, query i = some r → (at_config_expected opt val).length < 32 →
        (at_config_expected opt val).isPrefixOf r = true →
        at_config opt val attempts query = 0)) ∧
    ((at_config_expected opt val).length < 32 →
      (∀ i, i < attempts → ∃ r, query i = some r ∧
        (at_config_expected opt val).isPrefixOf r = false) →
      at_config opt val attempts query = 0) := by
  constructor
  · intro i hi hreach
    have hstep : at_config opt val attempts query =
        at_config_go opt val query i (attempts - i) := by
      unfold at_config
      rw [at_config_go_reach opt val query i attempts 0 hi
        (fun j hj => by simpa using hreach j hj)]
      rw [Nat.zero_add]
    obtain ⟨rem', hrem⟩ : ∃ rem', attempts - i = rem' + 1 :=
      ⟨attempts - i - 1, by omega⟩
    refine ⟨?_, ?_, ?_⟩
    · intro h
      rw [hstep, hrem, at_config_go_succ, h]
    · intro r h hfit
      rw [hstep, hrem, at_config_go_succ, h]
      dsimp only
      rw [if_pos hfit]
    · intro r h hfit hm
      rw [hstep, hrem, at_config_go_succ, h]
      dsimp only
      rw [if_neg (show ¬32 ≤ (at_config_expected opt val).length from by
          omega),
        if_pos hm]
  · intro hfit hall
    exact at_config_go_exhausted opt val query attempts 0 hfit
      fun j hj => by simpa using hall j hj

/-- Witness for `c7_at_config_results`: with two attempts, a non-matching
response on attempt 0 followed by a null query on attempt 1 returns −2. -/
theorem c7_at_config_results_witness :
    at_config [67] [49] 2 (fun n => if n = 0 then some [90] else none) =
      -2 :=
  ((c7_at_config_results [67] [49] 2
      (fun n => if n = 0 then some [90] else none) (by decide)).1
    1 (by decide)
    (fun j hj => by
      have hj0 : j = 0 := by omega
      subst hj0
      exact ⟨[90], rfl, by decide, by decide⟩)).1 rfl

/-! ## Claim C8: formatted-command bounds -/

/-- C8 (confirmed): `at_command` formats into a fixed 80-byte scratch
(`AT_COMMAND_LENGTH`); a formatted text of length at least 79
(`sizeof(line) - 1`) makes it return null without engaging the channel or
transport, and otherwise it appends exactly one trailing CR and sends the
formatted text plus that single CR — at most 80 bytes in total. -/
theorem c8_command_format_bounds (f : List Nat) (wait : Chan → Chan)
    (ch : Chan) :
    (AT_COMMAND_LENGTH - 1 ≤ f.length →
      at_command_fmt f = none ∧ at_command_hal wait ch f = (none, ch)) ∧
    (f.length < AT_COMMAND_LENGTH - 1 →
      at_command_fmt f = some (f ++ [13]) ∧
      (f ++ [13]).length = f.length + 1 ∧
      (f ++ [13]).length ≤ AT_COMMAND_LENGTH ∧
      (f ++ [13]).getLast? = some 13) := by
  constructor
  · intro h
    have h1 : at_command_fmt f = none := by
      unfold at_command_fmt
      rw [if_pos h]
    refine ⟨h1, ?_⟩
    unfold at_command_hal
    rw [h1]
  · intro h
    have h1 : at_command_fmt f = some (f ++ [13]) := by
      unfold at_command_fmt
      rw [if_neg (by omega)]
    refine ⟨h1, by simp, ?_, by simp⟩
    simp only [List.length_append, List.length_cons, List.length_nil]
    unfold AT_COMMAND_LENGTH at *
    omega

/-- Witness for `c8_command_format_bounds`: the short command "AT" gains a
single CR; an over-length 100-byte format is rejected with the channel
untouched. -/
theorem c8_command_format_bounds_witness :
    (at_command_fmt (bytes "AT") = some (bytes "AT" ++ [13]) ∧
      (bytes "AT" ++ [13]).length = (bytes "AT").length + 1 ∧
      (bytes "AT" ++ [13]).length ≤ AT_COMMAND_LENGTH ∧
      (bytes "AT" ++ [13]).getLast? = some 13) ∧
    at_command_fmt (List.replicate 100 65) = none := by
  constructor
  · exact (c8_command_format_bounds (bytes "AT") id
      { openFlag := false, waiting := false, commandScanner := none,
        parser := at_parser_alloc 4 0, response := [] }).2 (by decide)
  · exact ((c8_command_format_bounds (List.replicate 100 65) id
      { openFlag := false, waiting := false, commandScanner := none,
        parser := at_parser_alloc 4 0, response := [] }).1 (by decide)).1

/-! ## Claim C6: command failure protocol -/

/-- C6, as stated, is false on the code in one point: when the channel is
not open at entry, `_at_command` returns at line 220 of at-freertos_hal.c,
before the per-command scanner is cleared at line 269 — the scanner
installed with `at_set_command_scanner` stays installed.  Here the channel
is closed and carries a scanner; the call returns null and leaves the
channel (scanner included) untouched. -/
theorem c6_counterexample :
    let ch0 : Chan :=
      { openFlag := false, waiting := false,
        commandScanner := some fun _ => 1,
        parser := at_parser_alloc 8 0, response := [] }
    at_command_model id ch0 = (none, ch0) ∧
      ch0.commandScanner ≠ none := by
  refine ⟨rfl, ?_⟩
  intro h
  simp at h

/-- C6 (amended): `at_command` returns null when the channel is not open at
entry (leaving the channel, per-command scanner included, untouched); when
the channel is observed closed after the wait it returns null; when the
wait ends with `waiting` still true (timeout) it calls `at_parser_reset`
— restoring the parser to IDLE so later lines take the URC path — and
returns null; otherwise it returns the response buffer populated by
`handle_response`.  The per-command scanner is cleared before returning in
every case except the not-open-at-entry early return. -/
theorem c6_command_failure_protocol (wait : Chan → Chan) (ch : Chan) :
    (ch.openFlag = false → at_command_model wait ch = (none, ch)) ∧
    (ch.openFlag = true →
      (let ch1 := wait { ch with parser := hal_await_response ch.parser,
                                 waiting := true }
      (ch1.openFlag = false →
        at_command_model wait ch = (none, { ch1 with commandScanner := none })) ∧
      (ch1.openFlag = true → ch1.waiting = true →
        at_command_model wait ch =
          (none, { ch1 with parser := at_parser_reset ch1.parser,
                            commandScanner := none }) ∧
        (at_parser_reset ch1.parser).pstate = PState.idle) ∧
      (ch1.openFlag = true → ch1.waiting = false →
        at_command_model wait ch =
          (some ch1.response, { ch1 with commandScanner := none })))) := by
  constructor
  · intro h
    unfold at_command_model
    rw [if_pos h]
  · intro h
    refine ⟨?_, ?_, ?_⟩
    · intro h1
      unfold at_command_model
      rw [if_neg (by simp [h])]
      unfold at_command_resolve
      rw [if_pos h1]
    · intro h1 h2
      refine ⟨?_, rfl⟩
      unfold at_command_model
      rw [if_neg (by simp [h])]
      unfold at_command_resolve
      rw [if_neg (by simp [h1]), if_pos h2]
    · intro h1 h2
      unfold at_command_model
      rw [if_neg (by simp [h])]
      unfold at_command_resolve
      rw [if_neg (by simp [h1]), if_neg (by simp [h2])]

/-- Witness for `c6_command_failure_protocol`: an open channel whose wait
delivers a response (the reader's `handle_response` cleared `waiting`);
the command returns that response and drops the scanner. -/
theorem c6_command_failure_protocol_witness :
    at_command_model
        (fun c => { c with waiting := false, response := [79, 75] })
        { openFlag := true, waiting := false, commandScanner := some fun _ => 3,
          parser := at_parser_alloc 8 0, response := [] } =
      (some [79, 75],
        { openFlag := true, waiting := false, commandScanner := none,
          parser := hal_await_response (at_parser_alloc 8 0),
          response := [79, 75] }) :=
  ((c6_command_failure_protocol
      (fun c => { c with waiting := false, response := [79, 75] })
      { openFlag := true, waiting := false, commandScanner := some fun _ => 3,
        parser := at_parser_alloc 8 0, response := [] }).2 rfl).2.2 rfl rfl

/-! ## Claim C9: reset round-trip -/

/-- C9, as stated, is false on the code: `at_parser_reset` (at_parser.c
lines 74-81) restores `state`, `per_command_scanner`, `buf_used`,
`buf_current` and `data_left`, but never touches the `nibble` field — which
`at_parser_alloc` also leaves uninitialized.  After a per-command scanner
classifies a line as `HEXDATA_FOLLOWS(1)`, `parser_handle_line` sets
`nibble := -1`; a subsequent reset leaves it at -1, while the
freshly-allocated parser here carries nibble 0 — the instance differs from
a fresh one in that field. -/
theorem c9_counterexample :
    let hs : Scanner := fun l => if l = [65] then AT_RESPONSE_HEXDATA_FOLLOWS 1 else 0
    runOps none (at_parser_alloc 8 0)
        [POp.await false (some hs), POp.feed (bytes "A\n"), POp.reset] =
      some ({ pstate := PState.idle, perCommandScanner := none, dataLeft := 0,
              nibble := -1, buf := [], bufCurrent := 0, bufSize := 8 }, []) ∧
      ((-1 : Int) ≠ (at_parser_alloc 8 0).nibble) := by
  refine ⟨rfl, ?_⟩
  intro h
  simp [at_parser_alloc, at_parser_reset] at h

/-- C9 (amended): after any sequence of `at_parser_feed`,
`at_parser_await_response` and `at_parser_reset` calls that completes
normally, a single `at_parser_reset` leaves every field of the parser at
its freshly-allocated value — state IDLE, per-command scanner cleared,
`buf_used = buf_current = 0`, `data_left = 0`, buffer size preserved —
except possibly the hex `nibble` flag, which neither allocation nor reset
ever writes. -/
theorem c9_reset_round_trip (sl : Option Scanner) (n : Nat) (g : Int)
    (ops : List POp) (p' : ParserState) (evs : List PEvent)
    (h : runOps sl (at_parser_alloc n g) ops = some (p', evs)) :
    at_parser_reset p' = { at_parser_alloc n g with nibble := p'.nibble } := by
  have hbs : p'.bufSize = n := by
    refine runOps_preserve sl (fun q => q.bufSize = n) (fun _ => True)
      ?_ ops (at_parser_alloc n g) p' evs rfl (fun _ _ => trivial) h
    intro p op p1 e1 hQ _ hop
    cases op with
    | feed data =>
      simp only [runOp] at hop
      cases hf : at_parser_feed sl p data data.length with
      | ok q e =>
        rw [hf] at hop
        simp only [Option.some.injEq, Prod.mk.injEq] at hop
        have := at_parser_feed_ok_preserve sl (fun q => q.bufSize = n)
          (fun p ch hq => by
            show (parser_line_byte sl p ch).1.bufSize = n
            rw [parser_line_byte_bufSize]; exact hq)
          (fun p ch hq => by
            show (parser_rawdata_byte p ch).bufSize = n
            rw [parser_rawdata_byte_bufSize]; exact hq)
          data data.length p q e hQ hf
        exact hop.1 ▸ this
      | oob e => rw [hf] at hop; simp at hop
      | hang e => rw [hf] at hop; simp at hop
    | await d s =>
      simp only [runOp, Option.some.injEq, Prod.mk.injEq] at hop
      rw [← hop.1]
      exact hQ
    | reset =>
      simp only [runOp, Option.some.injEq, Prod.mk.injEq] at hop
      rw [← hop.1]
      exact hQ
  simp only [at_parser_reset, at_parser_alloc]
  rw [hbs]

/-- Witness for `c9_reset_round_trip`: a short feed-then-reset run. -/
theorem c9_reset_round_trip_witness :
    at_parser_reset
        { pstate := PState.readline, perCommandScanner := none, dataLeft := 0,
          nibble := 0, buf := [79], bufCurrent := 0, bufSize := 8 } =
      { at_parser_alloc 8 0 with
          nibble := ({ pstate := PState.readline, perCommandScanner := none,
                       dataLeft := 0, nibble := 0, buf := [79], bufCurrent := 0,
                       bufSize := 8 } : ParserState).nibble } :=
  c9_reset_round_trip none 8 0 [POp.await false none, POp.feed [79]]
    { pstate := PState.readline, perCommandScanner := none, dataLeft := 0,
      nibble := 0, buf := [79], bufCurrent := 0, bufSize := 8 } [] rfl

/-! ## Claim C4: buffer-cursor invariant -/

/-- C4 (confirmed): on a parser allocated with `bufsize ≥ 1`,
`0 ≤ buf_current ≤ buf_used < buf_size` holds after every sequence of
`at_parser_feed` / `at_parser_await_response` / `at_parser_reset` calls
(hence at every observable point: any such point is the state after a
prefix of the call sequence), the per-byte steps of the feed loop — the
points at which callbacks fire — each preserve the predicate, and
`parser_append` never writes at an index at or above `buf_size - 1`:
it writes at index `buf_used < buf_size - 1` or not at all. -/
theorem c4_buffer_cursor_invariant :
    (∀ (sl : Option Scanner) (n : Nat) (g : Int) (ops : List POp)
        (p' : ParserState) (evs : List PEvent), 1 ≤ n →
        runOps sl (at_parser_alloc n g) ops = some (p', evs) →
        0 ≤ p'.bufCurrent ∧ p'.bufCurrent ≤ p'.buf.length ∧
          p'.buf.length < p'.bufSize) ∧
    (∀ (sl : Option Scanner) (p : ParserState) (ch : Nat), WF p →
        WF (parser_line_byte sl p ch).1 ∧ WF (parser_rawdata_byte p ch) ∧
          WF (parser_handle_line sl p).1) ∧
    (∀ (p : ParserState) (ch : Nat), ¬p.buf.length < p.bufSize - 1 →
        parser_append p ch = p) ∧
    (∀ (p : ParserState) (ch : Nat), p.buf.length < p.bufSize - 1 →
        (parser_append p ch).buf = p.buf ++ [ch]) := by
  refine ⟨?_, ?_, ?_, ?_⟩
  · intro sl n g ops p' evs hn h
    have hwf : WF p' := by
      refine runOps_preserve sl WF (fun _ => True) ?_ ops
        (at_parser_alloc n g) p' evs ⟨Nat.le_refl 0, by
          simpa [at_parser_alloc, at_parser_reset] using hn⟩
        (fun _ _ => trivial) h
      intro p op p1 e1 hQ _ hop
      cases op with
      | feed data =>
        simp only [runOp] at hop
        cases hf : at_parser_feed sl p data data.length with
        | ok q e =>
          rw [hf] at hop
          simp only [Option.some.injEq, Prod.mk.injEq] at hop
          have := at_parser_feed_ok_preserve sl WF
            (fun p ch hq => parser_line_byte_WF sl p ch hq)
            (fun p ch hq => parser_rawdata_byte_WF p ch hq)
            data data.length p q e hQ hf
          exact hop.1 ▸ this
        | oob e => rw [hf] at hop; simp at hop
        | hang e => rw [hf] at hop; simp at hop
      | await d s =>
        simp only [runOp, Option.some.injEq, Prod.mk.injEq] at hop
        rw [← hop.1]
        exact hQ
      | reset =>
        simp only [runOp, Option.some.injEq, Prod.mk.injEq] at hop
        rw [← hop.1]
        exact ⟨Nat.le_refl 0, by
          simpa [at_parser_reset] using Nat.lt_of_le_of_lt (Nat.zero_le _) hQ.2⟩
    exact ⟨Nat.zero_le _, hwf.1, hwf.2⟩
  · intro sl p ch h
    exact ⟨parser_line_byte_WF sl p ch h, parser_rawdata_byte_WF p ch h,
      parser_handle_line_WF sl p h⟩
  · intro p ch h
    exact parser_append_full p ch h
  · intro p ch h
    unfold parser_append
    rw [if_pos h]

/-- Witness for `c4_buffer_cursor_invariant`: a concrete run — arm, feed a
response and a URC with a tiny 4-byte buffer — keeps the invariant. -/
theorem c4_buffer_cursor_invariant_witness :
    0 ≤ (at_parser_alloc 4 0).bufCurrent ∧
      (at_parser_alloc 4 0).bufCurrent ≤ (at_parser_alloc 4 0).buf.length ∧
      (at_parser_alloc 4 0).buf.length < (at_parser_alloc 4 0).bufSize :=
  c4_buffer_cursor_invariant.1 none 4 0
    [POp.await false none, POp.feed (bytes "+CSQ: 21,0\r\nRING\r\nOK\r\n"),
      POp.reset]
    (at_parser_alloc 4 0) [] (by decide) (by rfl)

/-! ## Claim C3: committed-region structure and FINAL_OK discard -/

theorem joinLines_ne_nil (lines : List (List Nat)) (h0 : lines ≠ [])
    (h : ∀ l ∈ lines, l ≠ []) : joinLines lines ≠ [] := by
  cases lines with
  | nil => exact absurd rfl h0
  | cons l ls =>
    cases ls with
    | nil => exact h l (by simp)
    | cons l2 ls2 =>
      show l ++ 10 :: joinLines (l2 :: ls2) ≠ []
      simp

theorem joinLines_getLast_ne (lines : List (List Nat))
    (h : ∀ l ∈ lines, l ≠ [] ∧ 10 ∉ l) :
    (joinLines lines).getLast? ≠ some 10 := by
  induction lines with
  | nil => simp [joinLines]
  | cons l ls ih =>
    cases ls with
    | nil =>
      show l.getLast? ≠ some 10
      intro hc
      exact (h l (by simp)).2 (List.mem_of_mem_getLast? (by rw [hc]; rfl))
    | cons l2 ls2 =>
      show (l ++ 10 :: joinLines (l2 :: ls2)).getLast? ≠ some 10
      rw [List.getLast?_append_cons]
      have hne : joinLines (l2 :: ls2) ≠ [] :=
        joinLines_ne_nil (l2 :: ls2) (by simp)
          (fun x hx => (h x (by simp [hx])).1)
      obtain ⟨y, ys, hys⟩ := List.exists_cons_of_ne_nil hne
      rw [hys, List.getLast?_cons_cons, ← hys]
      exact ih fun x hx => h x (by simp [hx])

theorem joinLines_append_singleton (lines : List (List Nat)) (l : List Nat)
    (h0 : lines ≠ []) :
    joinLines (lines ++ [l]) = joinLines lines ++ 10 :: l := by
  induction lines with
  | nil => exact absurd rfl h0
  | cons a ls ih =>
    cases ls with
    | nil => rfl
    | cons b rest =>
      show a ++ 10 :: joinLines ((b :: rest) ++ [l]) =
        (a ++ 10 :: joinLines (b :: rest)) ++ 10 :: l
      rw [ih (by simp)]
      simp


/-- A non-CR/LF byte in the line states (separator block plus append)
preserves the committed-region invariant. -/
theorem GoodC_sep_append (p : ParserState) (ch : Nat)
    (hch13 : ch ≠ 13) (hch10 : ch ≠ 10) (hg : GoodC p) :
    GoodC (parser_append (parser_line_sep p) ch) := by
  obtain ⟨⟨hwf1, hwf2⟩, hls, hp, h10, h13, hC⟩ := hg
  unfold parser_line_sep parser_append
  split_ifs with hsep hx1 hx2 hx3
  · -- separator appended, char appended
    obtain ⟨hb0, hcu⟩ := hsep
    refine ⟨⟨?_, ?_⟩, hls, hp, ?_, ?_, ?_⟩
    · show (p.buf ++ [10]).length ≤ ((p.buf ++ [10]) ++ [ch]).length
      simp
    · show ((p.buf ++ [10]) ++ [ch]).length < p.bufSize
      simp only [List.length_append, List.length_cons, List.length_nil] at hx2 ⊢
      omega
    · show 10 ∉ ((p.buf ++ [10]) ++ [ch]).drop (p.buf ++ [10]).length
      rw [List.drop_left]
      simp only [List.mem_singleton]
      omega
    · show 13 ∉ ((p.buf ++ [10]) ++ [ch]).drop (p.buf ++ [10]).length
      rw [List.drop_left]
      simp only [List.mem_singleton]
      omega
    · rcases hC with hc0 | ⟨lines, hne, hcl, hsh⟩
      · exact absurd (hc0 ▸ hcu.symm) (by omega)
      rcases hsh with ⟨_, hj⟩ | ⟨hj, hlt | ⟨_, hfull⟩⟩
      · rw [hcu, List.take_length] at hj
        refine Or.inr ⟨lines, hne, hcl, Or.inr ⟨?_, Or.inl ?_⟩⟩
        · show ((p.buf ++ [10]) ++ [ch]).take (p.buf ++ [10]).length =
            joinLines lines ++ [10]
          rw [List.take_left, hj]
        · show (p.buf ++ [10]).length < ((p.buf ++ [10]) ++ [ch]).length
          simp
      · omega
      · omega
  · -- separator appended, char append dropped (buffer now full)
    obtain ⟨hb0, hcu⟩ := hsep
    refine ⟨⟨?_, ?_⟩, hls, hp, ?_, ?_, ?_⟩
    · show (p.buf ++ [10]).length ≤ (p.buf ++ [10]).length
      exact le_refl _
    · show (p.buf ++ [10]).length < p.bufSize
      simp only [List.length_append, List.length_cons, List.length_nil] at hx1 ⊢
      omega
    · show 10 ∉ (p.buf ++ [10]).drop (p.buf ++ [10]).length
      simp
    · show 13 ∉ (p.buf ++ [10]).drop (p.buf ++ [10]).length
      simp
    · rcases hC with hc0 | ⟨lines, hne, hcl, hsh⟩
      · exact absurd (hc0 ▸ hcu.symm) (by omega)
      rcases hsh with ⟨_, hj⟩ | ⟨hj, hlt | ⟨_, hfull⟩⟩
      · rw [hcu, List.take_length] at hj
        refine Or.inr ⟨lines, hne, hcl, Or.inr ⟨?_, Or.inr ⟨rfl, ?_⟩⟩⟩
        · show (p.buf ++ [10]).take (p.buf ++ [10]).length = joinLines lines ++ [10]
          rw [List.take_length, hj]
        · show (p.buf ++ [10]).length = p.bufSize - 1
          simp only [List.length_append, List.length_cons, List.length_nil] at hx1 hx2 ⊢
          omega
      · omega
      · omega
  · -- separator append dropped: buffer already full at capacity - 1
    obtain ⟨hb0, hcu⟩ := hsep
    refine ⟨⟨?_, ?_⟩, hls, hp, ?_, ?_, ?_⟩
    · show p.buf.length ≤ p.buf.length
      exact le_refl _
    · exact hwf2
    · show 10 ∉ p.buf.drop p.buf.length
      simp
    · show 13 ∉ p.buf.drop p.buf.length
      simp
    · rcases hC with hc0 | ⟨lines, hne, hcl, hsh⟩
      · exact absurd (hc0 ▸ hcu.symm) (by omega)
      rcases hsh with ⟨_, hj⟩ | ⟨hj, hlt | ⟨_, hfull⟩⟩
      · refine Or.inr ⟨lines, hne, hcl, Or.inl ⟨rfl, ?_⟩⟩
        show List.take p.buf.length p.buf = joinLines lines
        rw [← hcu]
        exact hj
      · omega
      · refine Or.inr ⟨lines, hne, hcl, Or.inr ⟨?_, Or.inr ⟨rfl, hfull⟩⟩⟩
        show List.take p.buf.length p.buf = joinLines lines ++ [10]
        rw [← hcu]
        exact hj
  · -- no separator; char appended
    refine ⟨⟨?_, ?_⟩, hls, hp, ?_, ?_, ?_⟩
    · show p.bufCurrent ≤ (p.buf ++ [ch]).length
      simp only [List.length_append, List.length_cons, List.length_nil]
      omega
    · show (p.buf ++ [ch]).length < p.bufSize
      simp only [List.length_append, List.length_cons, List.length_nil]
      simp only [not_and] at hsep
      omega
    · show 10 ∉ (p.buf ++ [ch]).drop p.bufCurrent
      rw [List.drop_append_of_le_length hwf1]
      simp only [List.mem_append, List.mem_singleton]
      rintro (h | h)
      · exact h10 h
      · exact hch10 h.symm
    · show 13 ∉ (p.buf ++ [ch]).drop p.bufCurrent
      rw [List.drop_append_of_le_length hwf1]
      simp only [List.mem_append, List.mem_singleton]
      rintro (h | h)
      · exact h13 h
      · exact hch13 h.symm
    · have htake : (p.buf ++ [ch]).take p.bufCurrent = p.buf.take p.bufCurrent :=
        List.take_append_of_le_length hwf1
      rcases hC with hc0 | ⟨lines, hne, hcl, hsh⟩
      · exact Or.inl hc0
      rcases hsh with ⟨hcu, hj⟩ | ⟨hj, hlt | ⟨hcu, hfull⟩⟩
      · -- committed ends without a pending separator and the line is empty:
        -- then the separator block would have fired, contradiction
        exfalso
        have hjoin_ne : joinLines lines ≠ [] :=
          joinLines_ne_nil lines hne fun l hl => (hcl l hl).1
        have hc_pos : 0 < p.bufCurrent := by
          rcases Nat.eq_zero_or_pos p.bufCurrent with h0 | h0
          · rw [h0] at hj
            simp at hj
            exact (hjoin_ne hj).elim
          · exact h0
        exact hsep ⟨by omega, hcu⟩
      · refine Or.inr ⟨lines, hne, hcl, Or.inr ⟨by rw [htake]; exact hj, Or.inl ?_⟩⟩
        show p.bufCurrent < (p.buf ++ [ch]).length
        simp only [List.length_append, List.length_cons, List.length_nil]
        omega
      · -- full-buffer corner: contradicts the no-separator condition
        exfalso
        simp only [not_and] at hsep
        rcases Nat.eq_zero_or_pos p.buf.length with h0 | h0
        · rw [hcu, h0] at hj
          simp at hj
        · exact hsep h0 hcu
  · -- nothing changes
    exact ⟨⟨hwf1, hwf2⟩, hls, hp, h10, h13, hC⟩

/-- Discarding the line and its preceding separator (the URC path) turns a
pending-separator committed region back into a plain one. -/
theorem Committed_discard (p : ParserState) (_hwf1 : p.bufCurrent ≤ p.buf.length)
    (hC : Committed p) (hnei : p.buf.length ≠ p.bufCurrent) :
    ∃ lines : List (List Nat), (∀ l ∈ lines, l ≠ [] ∧ 10 ∉ l) ∧
      p.buf.take (p.bufCurrent - 1) = joinLines lines ∧
      (lines = [] → p.bufCurrent = 0) ∧ (lines ≠ [] → p.bufCurrent - 1 = (joinLines lines).length) := by
  rcases hC with hc0 | ⟨lines, hne, hcl, hsh⟩
  · refine ⟨[], by simp, ?_, fun _ => hc0, fun h => absurd rfl h⟩
    rw [hc0]
    simp [joinLines]
  rcases hsh with ⟨hcu, _⟩ | ⟨hj, hlt | ⟨hcu, _⟩⟩
  · exact absurd hcu.symm hnei
  · have hlen : p.bufCurrent = (joinLines lines).length + 1 := by
      have := congrArg List.length hj
      simp only [List.length_take, List.length_append, List.length_cons,
        List.length_nil] at this
      omega
    refine ⟨lines, hcl, ?_, fun h => absurd h hne, fun _ => by omega⟩
    have h1 : p.buf.take (p.bufCurrent - 1) =
        (p.buf.take p.bufCurrent).take (p.bufCurrent - 1) := by
      rw [List.take_take, min_eq_left (by omega)]
    rw [h1, hj, hlen]
    simp only [Nat.add_sub_cancel]
    rw [List.take_left]
  · exact absurd hcu.symm hnei

/-- `parser_handle_line` preserves the committed-region invariant. -/
theorem parser_handle_line_GoodC (sl : Option Scanner) (p : ParserState)
    (hsl : PlainOpt sl) (hg : GoodC p) :
    GoodC (parser_handle_line sl p).1 := by
  obtain ⟨⟨hwf1, hwf2⟩, hls, hp, h10, h13, hC⟩ := hg
  unfold parser_handle_line
  dsimp only
  by_cases hemp : p.buf.length = p.bufCurrent
  · rw [if_pos hemp]
    exact ⟨⟨hwf1, hwf2⟩, hls, hp, h10, h13, hC⟩
  rw [if_neg hemp]
  have hb := classify_bounds sl p.perCommandScanner (p.buf.drop p.bufCurrent)
    hsl hp
  simp only [AT_RESPONSE_TYPE_MASK]
  simp only [and255_small _ hb.2]
  obtain ⟨lines, hcl, hj, hlc0, hlcS⟩ := Committed_discard p hwf1 hC hemp
  have hCdisc : GoodC
      { p with
          buf := p.buf.take (p.bufCurrent - 1)
          bufCurrent := p.bufCurrent - 1 } := by
    refine ⟨⟨?_, ?_⟩, hls, hp, ?_, ?_, ?_⟩
    · show p.bufCurrent - 1 ≤ (p.buf.take (p.bufCurrent - 1)).length
      simp only [List.length_take]
      omega
    · show (p.buf.take (p.bufCurrent - 1)).length < p.bufSize
      simp only [List.length_take]
      omega
    · show 10 ∉ (p.buf.take (p.bufCurrent - 1)).drop (p.bufCurrent - 1)
      simp [List.drop_take]
    · show 13 ∉ (p.buf.take (p.bufCurrent - 1)).drop (p.bufCurrent - 1)
      simp [List.drop_take]
    · rcases List.eq_nil_or_concat lines with hl0 | _
      · subst hl0
        refine Or.inl ?_
        show p.bufCurrent - 1 = 0
        have := hlc0 rfl
        omega
      · rcases List.eq_nil_or_concat lines with hl0' | _
        · simp_all
        refine Or.inr ⟨lines, ?_, hcl, Or.inl ⟨?_, ?_⟩⟩
        · intro hcon
          simp_all
        · show p.bufCurrent - 1 = (p.buf.take (p.bufCurrent - 1)).length
          simp only [List.length_take]
          omega
        · show (p.buf.take (p.bufCurrent - 1)).take (p.bufCurrent - 1) =
            joinLines lines
          rw [List.take_take, min_self]
          exact hj
  have hCcommit : GoodC { p with bufCurrent := p.buf.length } := by
    refine ⟨⟨le_refl _, hwf2⟩, hls, hp, by simp, by simp, ?_⟩
    rcases hC with hc0 | ⟨lines', hne', hcl', hsh'⟩
    · refine Or.inr ⟨[p.buf], by simp, ?_, Or.inl ⟨rfl, by simp [joinLines]⟩⟩
      intro l hl
      rw [List.mem_singleton] at hl
      subst hl
      constructor
      · intro hnil
        rw [hnil] at hemp
        simp at hemp
        omega
      · have := h10
        rw [hc0] at this
        simpa using this
    rcases hsh' with ⟨hcu, _⟩ | ⟨hj', hlt | ⟨hcu, _⟩⟩
    · exact absurd hcu.symm hemp
    · refine Or.inr ⟨lines' ++ [p.buf.drop p.bufCurrent], by simp, ?_,
        Or.inl ⟨rfl, ?_⟩⟩
      · intro l hl
        rw [List.mem_append, List.mem_singleton] at hl
        rcases hl with hl | hl
        · exact hcl' l hl
        · subst hl
          refine ⟨?_, h10⟩
          intro hnil
          have := congrArg List.length hnil
          simp only [List.length_drop, List.length_nil] at this
          omega
      · show p.buf.take p.buf.length = joinLines (lines' ++ [p.buf.drop p.bufCurrent])
        rw [List.take_length, joinLines_append_singleton _ _ hne']
        rw [show (10 : Nat) :: p.buf.drop p.bufCurrent =
            [10] ++ p.buf.drop p.bufCurrent from rfl]
        rw [← List.append_assoc, ← hj', List.take_append_drop]
    · exact absurd hcu.symm hemp
  have hCreset : ∀ q : ParserState, q.bufSize = p.bufSize →
      GoodC (at_parser_reset q) := by
    intro q hq
    refine ⟨⟨le_refl 0, ?_⟩, Or.inl rfl, PlainOpt_none, by simp [at_parser_reset],
      by simp [at_parser_reset], Or.inl rfl⟩
    show ([] : List Nat).length < q.bufSize
    simp only [List.length_nil]
    omega
  have h14 : (classify sl p.perCommandScanner (p.buf.drop p.bufCurrent)).1 = 1 ∨
      (classify sl p.perCommandScanner (p.buf.drop p.bufCurrent)).1 = 2 ∨
      (classify sl p.perCommandScanner (p.buf.drop p.bufCurrent)).1 = 3 ∨
      (classify sl p.perCommandScanner (p.buf.drop p.bufCurrent)).1 = 4 := by
    omega
  rcases h14 with h | h | h | h <;> rw [h] <;> split_ifs <;>
    first
      | exact hCdisc
      | exact hCcommit
      | exact hCreset _ rfl
      | (exact ⟨⟨hwf1, hwf2⟩, hls, hp, h10, h13, hC⟩)
      | simp_all [AT_RESPONSE_FINAL_OK, AT_RESPONSE_FINAL, AT_RESPONSE_URC,
          AT_RESPONSE_RAWDATA_FOLLOWS_CAT, AT_RESPONSE_HEXDATA_FOLLOWS_CAT]

/-- One line-state byte preserves the committed-region invariant. -/
theorem parser_line_byte_GoodC (sl : Option Scanner) (p : ParserState)
    (ch : Nat) (hsl : PlainOpt sl) (hg : GoodC p) :
    GoodC (parser_line_byte sl p ch).1 := by
  unfold parser_line_byte
  dsimp only
  split_ifs with h1 h2 h3
  · exact parser_handle_line_GoodC sl _ hsl (GoodC_sep_append p ch h1.1 h1.2 hg)
  · exact GoodC_sep_append p ch h1.1 h1.2 hg
  · exact parser_handle_line_GoodC sl p hsl hg
  · exact hg

/-- Feed preservation for predicates that force a line-segmentation state. -/
theorem at_parser_feed_line_preserve (sl : Option Scanner)
    (Q : ParserState → Prop) (hQline : ∀ p, Q p → LineState p)
    (hline : ∀ p ch, Q p → Q (parser_line_byte sl p ch).1) :
    ∀ (data : List Nat) (len : Nat) (p p' : ParserState) (evs : List PEvent),
      Q p → at_parser_feed sl p data len = FeedResult.ok p' evs → Q p' := by
  intro data
  induction data with
  | nil =>
    intro len p p' evs hQ h
    cases len with
    | zero =>
      simp only [at_parser_feed, FeedResult.ok.injEq] at h
      exact h.1 ▸ hQ
    | succ n =>
      obtain ⟨ps, a, b, c, d, e, g⟩ := p
      cases ps <;> simp [at_parser_feed] at h
  | cons ch rest ih =>
    intro len p p' evs hQ h
    cases len with
    | zero =>
      simp only [at_parser_feed, FeedResult.ok.injEq] at h
      exact h.1 ▸ hQ
    | succ n =>
      have hlsp := hQline p hQ
      obtain ⟨ps, a, b, c, d, e, g⟩ := p
      cases ps
      case rawdata => exact absurd hlsp (by simp [LineState])
      case hexdata => exact absurd hlsp (by simp [LineState])
      all_goals
        simp only [at_parser_feed] at h
        obtain ⟨evs', h1, _⟩ := prependEvents_eq_ok h
        exact ih n _ p' evs' (hline _ ch hQ) h1

/-- The FINAL_OK disposition of `parser_handle_line`: the line and its
preceding separator are removed before `handle_response` fires, the payload
being exactly the previously committed intermediate lines joined by single
newlines, and the parser is reset. -/
theorem parser_handle_line_final_ok (sl : Option Scanner) (p : ParserState)
    (_hsl : PlainOpt sl) (hg : GoodC p)
    (hemp : p.buf.length ≠ p.bufCurrent)
    (hty : (classify sl p.perCommandScanner (p.buf.drop p.bufCurrent)).1 =
      AT_RESPONSE_FINAL_OK)
    (hidle : p.pstate ≠ PState.idle) :
    ∃ lines : List (List Nat),
      (∀ l ∈ lines, l ≠ [] ∧ 10 ∉ l) ∧
      p.buf.take (p.bufCurrent - 1) = joinLines lines ∧
      parser_handle_line sl p =
        (at_parser_reset p,
          (classify sl p.perCommandScanner (p.buf.drop p.bufCurrent)).2 ++
            [PEvent.response (joinLines lines) (joinLines lines).length]) ∧
      (joinLines lines).getLast? ≠ some 10 := by
  obtain ⟨⟨hwf1, hwf2⟩, hls, hp, h10, h13, hC⟩ := hg
  obtain ⟨lines, hcl, hj, _, _⟩ := Committed_discard p hwf1 hC hemp
  refine ⟨lines, hcl, hj, ?_, joinLines_getLast_ne lines hcl⟩
  unfold parser_handle_line
  dsimp only
  rw [if_neg hemp]
  rw [if_neg (show ¬((classify sl p.perCommandScanner
      (p.buf.drop p.bufCurrent)).1 = AT_RESPONSE_URC ∨ p.pstate = PState.idle)
    from by
      rintro (hu | hi)
      · rw [hty] at hu
        exact absurd hu (by decide)
      · exact hidle hi)]
  rw [if_neg (show ¬(classify sl p.perCommandScanner
      (p.buf.drop p.bufCurrent)).1 ≠ AT_RESPONSE_FINAL_OK from by simp [hty])]
  rw [if_pos (show (classify sl p.perCommandScanner
        (p.buf.drop p.bufCurrent)).1 &&& AT_RESPONSE_TYPE_MASK =
        AT_RESPONSE_FINAL_OK ∨
      (classify sl p.perCommandScanner
        (p.buf.drop p.bufCurrent)).1 &&& AT_RESPONSE_TYPE_MASK =
        AT_RESPONSE_FINAL from Or.inl (by rw [hty]; decide))]
  rw [← hj]
  rfl

/-- C3, as stated, is false on the code once a scanner returns
`RAWDATA_FOLLOWS(n)`: the captured raw bytes are committed with a trailing
`'\n'` and without a separator from the previous line, so the payload
handed to `handle_response` when the final "OK" line is discarded is not
the committed lines joined by single newlines and carries a trailing
newline.  With a per-command scanner classifying `"A"` as
`RAWDATA_FOLLOWS(2)`, feeding `"A\nXY\nOK\n"` fires `handle_response` with
payload `[65, 88, 89, 10]` — `"AXY\n"`: trailing newline, no separator
between the committed line `"A"` and the raw chunk `"XY"` (the joined form
would be `[65, 10, 88, 89]`).  The "OK" line itself is still discarded. -/
theorem c3_counterexample :
    let s2 : Scanner := fun l => if l = [65] then AT_RESPONSE_RAWDATA_FOLLOWS 2 else 0
    let r0 := at_parser_await_response (at_parser_alloc 64 0) false (some s2)
    at_parser_feed none r0 (bytes "A\nXY\nOK\n") 8 =
      FeedResult.oob [PEvent.response [65, 88, 89, 10] 4] ∧
      ([65, 88, 89, 10] : List Nat).getLast? = some 10 ∧
      ([65, 88, 89, 10] : List Nat) ≠ [65, 10, 88, 89] :=
  ⟨rfl, rfl, by decide⟩

/-- C3 (amended): provided every installed classifier returns only the
plain categories (no RAWDATA/HEXDATA capture), the committed-region
invariant `GoodC` holds at every reachable state — it holds after arming a
freshly allocated parser, is preserved by every line-state byte and by
every completed API call — and whenever a completed non-empty line is
classified FINAL_OK, that line's bytes and the preceding separator are
removed before `handle_response` fires: the payload is exactly the
previously committed intermediate lines joined by single `'\n'` characters
(`joinLines`), with no trailing `'\n'`, and never containing the FINAL_OK
line (the parser is simply reset). -/
theorem c3_final_ok_discard (sl : Option Scanner) (hsl : PlainOpt sl) :
    (∀ (n : Nat) (g : Int) (d : Bool) (s : Option Scanner), 1 ≤ n →
        PlainOpt s →
        GoodC (at_parser_await_response (at_parser_alloc n g) d s)) ∧
    (∀ (p : ParserState) (ch : Nat), GoodC p →
        GoodC (parser_line_byte sl p ch).1) ∧
    (∀ (ops : List POp) (p p' : ParserState) (evs : List PEvent),
        GoodC p → PlainOps ops → runOps sl p ops = some (p', evs) →
        GoodC p') ∧
    (∀ p : ParserState, GoodC p → p.buf.length ≠ p.bufCurrent →
        (classify sl p.perCommandScanner (p.buf.drop p.bufCurrent)).1 =
          AT_RESPONSE_FINAL_OK →
        p.pstate ≠ PState.idle →
        ∃ lines : List (List Nat),
          (∀ l ∈ lines, l ≠ [] ∧ 10 ∉ l) ∧
          p.buf.take (p.bufCurrent - 1) = joinLines lines ∧
          parser_handle_line sl p =
            (at_parser_reset p,
              (classify sl p.perCommandScanner (p.buf.drop p.bufCurrent)).2 ++
                [PEvent.response (joinLines lines) (joinLines lines).length]) ∧
          (joinLines lines).getLast? ≠ some 10) := by
  refine ⟨?_, ?_, ?_, ?_⟩
  · intro n g d s hn hs
    refine ⟨⟨Nat.le_refl 0, ?_⟩, ?_, ?_, by simp [at_parser_await_response,
      at_parser_alloc, at_parser_reset], by simp [at_parser_await_response,
      at_parser_alloc, at_parser_reset], Or.inl rfl⟩
    · show ([] : List Nat).length < n
      simpa using hn
    · unfold LineState at_parser_await_response
      cases d <;> simp
    · exact hs
  · intro p ch hg
    exact parser_line_byte_GoodC sl p ch hsl hg
  · intro ops p p' evs hg hplain h
    refine runOps_preserve sl GoodC
      (fun op => ∀ d s, op = POp.await d s → PlainOpt s) ?_ ops p p' evs hg
      (fun op hop d s heq => hplain d s (heq ▸ hop)) h
    intro q op q1 e1 hQ hR hop
    cases op with
    | feed data =>
      simp only [runOp] at hop
      cases hf : at_parser_feed sl q data data.length with
      | ok r e =>
        rw [hf] at hop
        simp only [Option.some.injEq, Prod.mk.injEq] at hop
        have := at_parser_feed_line_preserve sl GoodC (fun p hp => hp.2.1)
          (fun p ch hp => parser_line_byte_GoodC sl p ch hsl hp)
          data data.length q r e hQ hf
        exact hop.1 ▸ this
      | oob e => rw [hf] at hop; simp at hop
      | hang e => rw [hf] at hop; simp at hop
    | await d s =>
      simp only [runOp, Option.some.injEq, Prod.mk.injEq] at hop
      rw [← hop.1]
      obtain ⟨⟨h1, h2⟩, _, _, h4, h5, h6⟩ := hQ
      refine ⟨⟨h1, h2⟩, ?_, hR d s rfl, h4, h5, h6⟩
      unfold LineState at_parser_await_response
      cases d <;> simp
    | reset =>
      simp only [runOp, Option.some.injEq, Prod.mk.injEq] at hop
      rw [← hop.1]
      refine ⟨⟨Nat.le_refl 0, ?_⟩, Or.inl rfl, PlainOpt_none,
        by simp [at_parser_reset], by simp [at_parser_reset], Or.inl rfl⟩
      show ([] : List Nat).length < q.bufSize
      have := hQ.1.2
      simp only [List.length_nil]
      omega
  · intro p hg hemp hty hidle
    exact parser_handle_line_final_ok sl p hsl hg hemp hty hidle

/-- Witness for `c3_final_ok_discard`: a parser that committed the line
"A" and holds the pending final line "OK"; the FINAL_OK disposition
delivers exactly the committed line, newline-free at the tail. -/
theorem c3_final_ok_discard_witness :
    ∃ lines : List (List Nat),
      (∀ l ∈ lines, l ≠ [] ∧ 10 ∉ l) ∧
      (([65, 10, 79, 75] : List Nat).take (2 - 1) = joinLines lines) ∧
      parser_handle_line none
          { pstate := PState.readline, perCommandScanner := none,
            dataLeft := 0, nibble := 0, buf := [65, 10, 79, 75],
            bufCurrent := 2, bufSize := 32 } =
        (at_parser_reset
          { pstate := PState.readline, perCommandScanner := none,
            dataLeft := 0, nibble := 0, buf := [65, 10, 79, 75],
            bufCurrent := 2, bufSize := 32 },
         (classify none none (([65, 10, 79, 75] : List Nat).drop 2)).2 ++
           [PEvent.response (joinLines lines) (joinLines lines).length]) ∧
      (joinLines lines).getLast? ≠ some 10 :=
  (c3_final_ok_discard none PlainOpt_none).2.2.2
    { pstate := PState.readline, perCommandScanner := none, dataLeft := 0,
      nibble := 0, buf := [65, 10, 79, 75], bufCurrent := 2, bufSize := 32 }
    ⟨⟨by decide, by decide⟩, Or.inr (Or.inl rfl), PlainOpt_none,
      by decide, by decide,
      Or.inr ⟨[[65]], by decide, by decide, Or.inr ⟨by decide, Or.inl (by decide)⟩⟩⟩
    (by decide) (by decide) (by decide)
